import Mathlib

/-!
Verification of the Artikel_LLM article pipeline (src/humanizer_claude.py and
src/humanizer_pipeline_lang.py) against its specification.

Text is embedded as a list of Unicode code points (`Str := List Nat`), obtained
from Lean string literals via `codes`.  The Python sources restrict their own
character classes to ASCII plus the German letters ÄÖÜäöüß (see WORD_RE in the
source); the embedding implements lower-casing and the `\w` / `\s` classes
exactly on that alphabet and leaves other code points unchanged, which is the
alphabet every document handled by the program uses.

Python regular expressions are rendered as explicit scanners.  Floating-point
threshold comparisons (type-token ratio >= 0.45, sentence-length pstdev >= 7.0)
are rendered as exact integer inequalities over the same data
(`den*uniq >= num*total`, `n*sumsq >= v^2*n^2 + sum^2`), which agree with the
float comparisons the source performs.
-/

namespace Artikel

abbrev Str := List Nat

def codes (s : String) : Str := s.data.map Char.toNat

/-- Python `\s` on the program's alphabet: space, tab, LF, VT, FF, CR. -/
def isSpaceCode (c : Nat) : Bool :=
  c = 32 || c = 9 || c = 10 || c = 11 || c = 12 || c = 13

/-- ASCII digit. -/
def isDigitCode (c : Nat) : Bool := 48 ≤ c && c ≤ 57

/-- Letters of the program's alphabet: A-Z, a-z, ÄÖÜäöüß. -/
def isLetterCode (c : Nat) : Bool :=
  (65 ≤ c && c ≤ 90) || (97 ≤ c && c ≤ 122) ||
  c = 196 || c = 214 || c = 220 || c = 228 || c = 246 || c = 252 || c = 223

/-- Python `\w` on the program's alphabet: letters, digits, underscore. -/
def isWordCode (c : Nat) : Bool := isLetterCode c || isDigitCode c || c = 95

/-- Character class of WORD_RE = `[A-Za-zÄÖÜäöüß\-']+`: letters, hyphen, apostrophe. -/
def isTokCode (c : Nat) : Bool := isLetterCode c || c = 45 || c = 39

/-- Python `str.lower()` on the program's alphabet (A-Z and ÄÖÜ). -/
def toLowerCode (c : Nat) : Nat :=
  if 65 ≤ c && c ≤ 90 then c + 32
  else if c = 196 then 228
  else if c = 214 then 246
  else if c = 220 then 252
  else c

def pyLower (s : Str) : Str := s.map toLowerCode

/-- Python `str.strip()`: drop leading and trailing whitespace. -/
def pyStrip (s : Str) : Str :=
  ((s.dropWhile isSpaceCode).reverse.dropWhile isSpaceCode).reverse

/-- Prefix test (`List.isPrefixOf`, re-implemented so that the empty pattern
succeeds without inspecting the other list, which keeps reductions with an
abstract tail unstuck). -/
def prefixAt : Str → Str → Bool
  | [], _ => true
  | a :: as, s =>
    match s with
    | [] => false
    | b :: bs => a = b && prefixAt as bs

/-- Substring test (`pat in hay` in Python). -/
def hasSubstr (hay pat : Str) : Bool :=
  match hay with
  | [] => pat.isEmpty
  | _ :: t => prefixAt pat hay || hasSubstr t pat

/-- Index of the earliest occurrence of `pat` in `hay`, if any. -/
def findSubstrIdx (hay pat : Str) : Option Nat :=
  match hay with
  | [] => if pat.isEmpty then some 0 else none
  | _ :: t =>
    if prefixAt pat hay then some 0
    else (findSubstrIdx t pat).map (· + 1)

/-- Split on a single separator code, Python `str.split(sep)` (empty pieces kept). -/
def splitOnCodeAux (sep : Nat) : Str → Str → List Str
  | [], acc => [acc.reverse]
  | c :: rest, acc =>
    if c = sep then acc.reverse :: splitOnCodeAux sep rest []
    else splitOnCodeAux sep rest (c :: acc)

def splitOnCode (sep : Nat) (s : Str) : List Str := splitOnCodeAux sep s []

/-- Split on every character of a class (pieces between single delimiters;
empty pieces kept, they are filtered by every caller). -/
def splitClassAux (isDelim : Nat → Bool) : Str → Str → List Str
  | [], acc => [acc.reverse]
  | c :: rest, acc =>
    if isDelim c then acc.reverse :: splitClassAux isDelim rest []
    else splitClassAux isDelim rest (c :: acc)

def splitClass (isDelim : Nat → Bool) (s : Str) : List Str := splitClassAux isDelim s []

/-- Maximal runs of a character class (the `findall` of a `[class]+` pattern). -/
def runsAux (keep : Nat → Bool) : Str → Str → List Str
  | [], acc => if acc.isEmpty then [] else [acc.reverse]
  | c :: rest, acc =>
    if keep c then runsAux keep rest (c :: acc)
    else if acc.isEmpty then runsAux keep rest []
    else acc.reverse :: runsAux keep rest []

def runs (keep : Nat → Bool) (s : Str) : List Str := runsAux keep s []

/-! ## Lexical metric extractors (humanizer_claude.py lines 196-234) -/

/-- `tokenize`: `WORD_RE.findall(text)`. -/
def tokenize (text : Str) : List Str := runs isTokCode text

/-- `word_count`. -/
def word_count (text : Str) : Nat := (tokenize text).length

/-- Maximal `\w`-runs, the words of the `\b...\b` patterns. -/
def wordRuns (text : Str) : List Str := runs isWordCode text

/-- Number of maximal word runs equal to a member of `ws`: the match count of
the alternation pattern `\b(w1|...|wn)\b` for purely alphabetic words `wi`. -/
def countWholeWords (ws : List Str) (text : Str) : Nat :=
  (wordRuns text).countP (fun r => r ∈ ws)

def FIRST_PERSON_WORDS : List Str :=
  [codes "ich", codes "mir", codes "mich", codes "mein", codes "meine",
   codes "meinem", codes "meinen", codes "meiner", codes "meines"]

/-- `count_first_person`: `\b(ich|mir|mich|mein|meine|meinem|meinen|meiner|meines)\b`
over the lower-cased text. -/
def count_first_person (text : Str) : Nat :=
  countWholeWords FIRST_PERSON_WORDS (pyLower text)

def SECOND_PERSON_WORDS : List Str :=
  [codes "du", codes "dich", codes "dir", codes "dein", codes "deine",
   codes "deinen", codes "deinem", codes "deiner", codes "deines"]

/-- `count_second_person` over the lower-cased text. -/
def count_second_person (text : Str) : Nat :=
  countWholeWords SECOND_PERSON_WORDS (pyLower text)

def FORMAL_ADDRESS_WORDS : List Str :=
  [codes "Sie", codes "Ihnen", codes "Ihr", codes "Ihre", codes "Ihrem",
   codes "Ihren", codes "Ihrer", codes "Ihres"]

/-- `count_formal_address`: case-sensitive whole-word counts of the
capitalised formal pronouns (patterns `\bSie\b`, `\bIhnen\b`, ...). -/
def count_formal_address (text : Str) : Nat :=
  countWholeWords FORMAL_ADDRESS_WORDS text

def NEGATIVE_LIST_DE : List Str :=
  [codes "In diesem Artikel", codes "abschließend", codes "insgesamt",
   codes "innovativ", codes "köstlich", codes "einfach zuzubereiten",
   codes "im Folgenden", codes "es ist wichtig zu beachten",
   codes "nachstehend", codes "zusammenfassend", codes "Fazit"]

/-- `has_banned_phrases`: case-insensitive substring search for each banned phrase. -/
def has_banned_phrases (text : Str) : Bool :=
  NEGATIVE_LIST_DE.any (fun p => hasSubstr (pyLower text) (pyLower p))

/-- Sentence delimiters of `re.split(r"[\.!\?\n]+", text)`. -/
def isSentDelim (c : Nat) : Bool := c = 46 || c = 33 || c = 63 || c = 10

/-- `sentence_lengths`: token count of every sentence that has at least one
token; `[0]` when none has. -/
def sentence_lengths (text : Str) : List Nat :=
  let lens := ((splitClass isSentDelim text).map (fun s => (tokenize s).length)).filter
    (fun n => 0 < n)
  if lens.isEmpty then [0] else lens

/-- Injective numeral encoding of a token: every character a token can
contain (`isTokCode`) has a code below 256, also after lower-casing, so
base-256 evaluation with nonzero digits identifies tokens uniquely. -/
def natKey (t : Str) : Nat := t.foldl (fun a c => a * 256 + c) 0

def mergeNatF : Nat → List Nat → List Nat → List Nat
  | 0, l, r => l ++ r
  | _, [], l => l
  | _, l, [] => l
  | fuel + 1, a :: as, b :: bs =>
    if a ≤ b then a :: mergeNatF fuel as (b :: bs) else b :: mergeNatF fuel (a :: as) bs

def mergeNat (l r : List Nat) : List Nat := mergeNatF (l.length + r.length) l r

def mergePairs : List (List Nat) → List (List Nat)
  | a :: b :: rest => mergeNat a b :: mergePairs rest
  | ls => ls

def mergeAllFuel : Nat → List (List Nat) → List Nat
  | _, [] => []
  | _, [l] => l
  | 0, l :: _ => l
  | fuel + 1, ls => mergeAllFuel fuel (mergePairs ls)

def sortNat (l : List Nat) : List Nat := mergeAllFuel l.length (l.map (fun x => [x]))

/-- Distinct count of a sorted list (adjacent comparison). -/
def countDistinctSorted : List Nat → Nat
  | [] => 0
  | [_] => 1
  | a :: b :: rest =>
    (if a = b then 0 else 1) + countDistinctSorted (b :: rest)

/-- `len(set(lowered tokens))` and `len(tokens)`: the distinct count is taken
over the injective `natKey` images, sorted first (a merge sort keeps the
kernel reduction shallow and fast). -/
def ttrCounts (text : Str) : Nat × Nat :=
  let toks := (tokenize text).map pyLower
  (countDistinctSorted (sortNat (toks.map natKey)), toks.length)

/-- Exact rendition of `type_token_ratio(text) >= num/den` (the ratio is
uniq/total, and 0.0 on empty input). -/
def ttr_check (text : Str) (num den : Nat) : Bool :=
  let p := ttrCounts text
  if p.2 = 0 then num = 0 else num * p.2 ≤ den * p.1

/-- Exact rendition of `variance_sentence_length(text) >= v` where the source
value is `statistics.pstdev(lens)` for more than one sentence and `0.0`
otherwise: `pstdev >= v  <=>  n*Σx² >= v²·n² + (Σx)²`. -/
def var_check (text : Str) (v : Nat) : Bool :=
  let lens := sentence_lengths text
  if lens.length ≤ 1 then v = 0
  else
    let n := lens.length
    let s := lens.foldl (fun a x => a + x) 0
    let sq := lens.foldl (fun a x => a + x * x) 0
    v * v * (n * n) + s * s ≤ n * sq

/-- One match attempt of `\b\d+[.,]?\d*\b` at the head of `s` (a word boundary
holds before `s`); returns the remaining input after the match. -/
def numberMatchAt (s : Str) : Option Str :=
  match runs isDigitCode s, s.dropWhile isDigitCode with
  | d1 :: _, rest =>
    if prefixAt d1 s then
      match rest with
      | sep :: rest2 =>
        if sep = 46 || sep = 44 then
          match rest2 with
          | c :: _ =>
            if isDigitCode c then
              -- fractional digits present: greedy digits, then boundary needed
              let rest3 := rest2.dropWhile isDigitCode
              match rest3 with
              | [] => some []
              | c2 :: _ => if isWordCode c2 then some rest2 else some rest3
              -- on boundary failure after the fraction the engine backtracks to
              -- an empty fraction; the boundary after the separator then holds
            else if isWordCode c then some rest2  -- boundary directly after separator
            else some (sep :: rest2)              -- separator dropped, boundary after digits
          | [] => some []                          -- digits at end of input
        else if isWordCode sep then none           -- letter glued to digits: no boundary
        else some (sep :: rest2)
      | [] => some []
    else none
  | _, _ => none

def countNumbersAux : Nat → Bool → Str → Nat
  | 0, _, _ => 0
  | _, _, [] => 0
  | fuel + 1, atBoundary, c :: rest =>
    if atBoundary && isDigitCode c then
      match numberMatchAt (c :: rest) with
      | some rem => 1 + countNumbersAux fuel false rem
      | none => countNumbersAux fuel false rest
    else countNumbersAux fuel (!isWordCode c) rest

/-- `count_numbers`: `len(re.findall(r"\b\d+[.,]?\d*\b", text))`.  The fuel
equals the input length; every scanner step consumes at least one character
(a successful match never returns a longer remainder), so the fuel never runs
out.  Fuel recursion keeps the definition structural, which the kernel can
evaluate. -/
def count_numbers (text : Str) : Nat := countNumbersAux text.length true text

/-! ## Small pattern matchers for the structural checks

Each heading pattern of `check_structure` / `extract_section` is anchored with
`^` under `re.MULTILINE`, so it is matched against the line list
(`splitOnCode 10`).  A matcher consumes a prefix of a line and returns the
rest, `none` on failure. -/

def matchLit (pat : Str) (s : Str) : Option Str :=
  if prefixAt pat s then some (s.drop pat.length) else none

/-- `\s+` followed by a literal that starts with a non-space character (all
uses below): greedy whitespace needs no backtracking. -/
def matchWsPlus (s : Str) : Option Str :=
  match s with
  | c :: rest => if isSpaceCode c then some (rest.dropWhile isSpaceCode) else none
  | [] => none

def matchWsStar (s : Str) : Str := s.dropWhile isSpaceCode

def andThen (r : Option Str) (f : Str → Option Str) : Option Str :=
  match r with
  | some s => f s
  | none => none

/-- Line matches `^##\s+Einleitung` (prefix match, rest of line free). -/
def lineH2Einleitung (l : Str) : Bool :=
  (andThen (matchLit (codes "##") l) (fun s =>
    andThen (matchWsPlus s) (fun s2 => matchLit (codes "Einleitung") s2))).isSome

/-- Line matches `^##\s+Hintergrund\s*&\s*Tipps`. -/
def lineH2BgTipps (l : Str) : Bool :=
  (andThen (matchLit (codes "##") l) (fun s =>
    andThen (matchWsPlus s) (fun s2 =>
      andThen (matchLit (codes "Hintergrund") s2) (fun s3 =>
        andThen (matchLit (codes "&") (matchWsStar s3)) (fun s4 =>
          matchLit (codes "Tipps") (matchWsStar s4)))))).isSome

/-- Line matches `^##\s+Rezept:`. -/
def lineH2Rezept (l : Str) : Bool :=
  (andThen (matchLit (codes "##") l) (fun s =>
    andThen (matchWsPlus s) (fun s2 => matchLit (codes "Rezept:") s2))).isSome

/-- Line matches `^###\s+Zutaten`. -/
def lineH3Zutaten (l : Str) : Bool :=
  (andThen (matchLit (codes "###") l) (fun s =>
    andThen (matchWsPlus s) (fun s2 => matchLit (codes "Zutaten") s2))).isSome

/-- Line matches `^###\s+Schritt\s+für\s+Schritt`. -/
def lineH3Schritte (l : Str) : Bool :=
  (andThen (matchLit (codes "###") l) (fun s =>
    andThen (matchWsPlus s) (fun s2 =>
      andThen (matchLit (codes "Schritt") s2) (fun s3 =>
        andThen (matchWsPlus s3) (fun s4 =>
          andThen (matchLit (codes "für") s4) (fun s5 =>
            andThen (matchWsPlus s5) (fun s6 =>
              matchLit (codes "Schritt") s6))))))).isSome

/-- Line matches `^###\s+Zeiten\s*&\s*Portionen`. -/
def lineH3Zeiten (l : Str) : Bool :=
  (andThen (matchLit (codes "###") l) (fun s =>
    andThen (matchWsPlus s) (fun s2 =>
      andThen (matchLit (codes "Zeiten") s2) (fun s3 =>
        andThen (matchLit (codes "&") (matchWsStar s3)) (fun s4 =>
          matchLit (codes "Portionen") (matchWsStar s4)))))).isSome

/-- Line matches `^\d+\.\s` (a numbered step). -/
def lineStep (l : Str) : Bool :=
  match l with
  | c :: _ =>
    if isDigitCode c then
      match l.dropWhile isDigitCode with
      | 46 :: c2 :: _ => isSpaceCode c2
      | _ => false
    else false
  | [] => false

/-- Line matches `^#\s+(.+)`; returns the stripped H1 text on success
(group(1) after the greedy `\s+`, then `.strip()` as in the source, which
together equal `pyStrip` of everything after `#`). -/
def lineH1 (l : Str) : Option Str :=
  match l with
  | 35 :: c :: rest =>
    if isSpaceCode c && (c :: rest).length ≥ 2 then some (pyStrip (c :: rest))
    else none
  | _ => none

def firstH1 : List Str → Option Str
  | [] => none
  | l :: rest =>
    match lineH1 l with
    | some h => some h
    | none => firstH1 rest

/-- YAML frontmatter test: `re.search(r"^---\s*[\s\S]*?---\s*", md.strip())`,
equivalent to: the stripped text starts with `---` and contains a second
`---` afterwards. -/
def hasYamlFrontmatter (md : Str) : Bool :=
  let s := pyStrip md
  prefixAt (codes "---") s && hasSubstr (s.drop 3) (codes "---")

/-- `re.sub(r"^---[\s\S]*?---", "", md)`: drop the leading frontmatter block
(through the earliest closing `---`), if the text starts with `---`. -/
def dropFrontmatter (md : Str) : Str :=
  if prefixAt (codes "---") md then
    match findSubstrIdx (md.drop 3) (codes "---") with
    | some k => md.drop (3 + k + 3)
    | none => md
  else md

/-- First 100 body tokens joined by single spaces and lower-cased
(`" ".join(tokenize(body)[:100]).lower()`). -/
def first100Joined (md : Str) : Str :=
  pyLower ((((tokenize (pyStrip (dropFrontmatter md))).take 100).intersperse
    [32]).foldl (fun a t => a ++ t) [])

/-- `check_structure(md, primary_kw)` (humanizer_claude.py lines 236-260). -/
structure StructureChecks where
  yaml_frontmatter : Bool
  h1_present : Bool
  h1_contains_primary_kw : Bool
  h2_einleitung : Bool
  h2_bg_tipps : Bool
  h2_rezept : Bool
  h3_zutaten : Bool
  h3_schritte : Bool
  h3_zeiten : Bool
  steps_count : Nat
  steps_ok : Bool
  kw_in_first100 : Bool
deriving DecidableEq

def check_structure (md : Str) (primary_kw : Str) : StructureChecks :=
  let lines := splitOnCode 10 md
  let h1 := (firstH1 lines).getD []
  let steps := (lines.filter lineStep).length
  { yaml_frontmatter := hasYamlFrontmatter md
    h1_present := !h1.isEmpty
    h1_contains_primary_kw :=
      if primary_kw.isEmpty then true
      else hasSubstr (pyLower h1) (pyLower primary_kw)
    h2_einleitung := lines.any lineH2Einleitung
    h2_bg_tipps := lines.any lineH2BgTipps
    h2_rezept := lines.any lineH2Rezept
    h3_zutaten := lines.any lineH3Zutaten
    h3_schritte := lines.any lineH3Schritte
    h3_zeiten := lines.any lineH3Zeiten
    steps_count := steps
    steps_ok := 6 ≤ steps && steps ≤ 12
    kw_in_first100 :=
      if primary_kw.isEmpty then true
      else hasSubstr (first100Joined md) (pyLower primary_kw) }

/-! ## `extract_section` (lines 262-265)

The pattern is `^##\s+HDR\s*\n([\s\S]*?)(?=\n##\s+|$)` under `re.MULTILINE`.
Because `$` matches at every line end under MULTILINE and the group is
non-greedy, a successful match captures only the text up to the first
following line end: the header line must read `## HDR` (trailing whitespace
allowed), the `\s*\n` then consumes any whitespace-only lines, and the group
is the next line (empty when the section has no further content but the
header line ends in a newline). -/

def lineIsWsOnly (l : Str) : Bool := l.all isSpaceCode

def headerLineMatch (hdr : Str) (l : Str) : Bool :=
  match andThen (matchLit (codes "##") l) (fun s =>
    andThen (matchWsPlus s) (fun s2 => matchLit hdr s2)) with
  | some rest => lineIsWsOnly rest
  | none => false

def afterHeaderContent : List Str → Option Str
  | [] => none
  | l :: rest => if lineIsWsOnly l then
      match afterHeaderContent rest with
      | some c => some c
      | none => some []
    else some l

def extractSectionLines (hdr : Str) : List Str → Option Str
  | [] => none
  | l :: rest =>
    if headerLineMatch hdr l then
      match afterHeaderContent rest with
      | some c => some c
      | none => extractSectionLines hdr rest  -- header is last line, no newline after
    else extractSectionLines hdr rest

def extract_section (md : Str) (hdr : Str) : Str :=
  pyStrip ((extractSectionLines hdr (splitOnCode 10 md)).getD [])

/-! ## Coherence checks (lines 267-298) -/

def contains_destination (text : Str) (dest : Str) : Bool :=
  if dest.isEmpty then true else hasSubstr (pyLower text) (pyLower dest)

/-- Prefix of `s` before the first match of `[.!?]\s`
(`re.split(r"[.!?]\s", s, maxsplit=1)[0]`). -/
def firstSentencePart : Str → Str
  | [] => []
  | c :: rest =>
    if c = 46 || c = 33 || c = 63 then
      match rest with
      | c2 :: _ => if isSpaceCode c2 then [] else c :: firstSentencePart rest
      | [] => [c]
    else c :: firstSentencePart rest

def BRIDGE_MARKERS : List Str :=
  [codes "meine erste begegnung", codes "ein paar tage zuvor", codes "später",
   codes "damals", codes "hier", codes "dort"]

structure CoherenceChecks where
  intro_has_dest : Bool
  bg_has_dest : Bool
  bridge_ok : Bool
  ok : Bool
deriving DecidableEq

def coherence_checks (md : Str) (destination : Str) : CoherenceChecks :=
  let intro := extract_section md (codes "Einleitung")
  let bg := extract_section md (codes "Hintergrund & Tipps")
  let intro_has_dest := contains_destination intro destination
  let bg_has_dest :=
    if bg.isEmpty then true else contains_destination (bg.take 200) destination
  let first_bg_sentence :=
    if bg.isEmpty then [] else pyLower (firstSentencePart (pyStrip bg))
  let bridge_ok :=
    BRIDGE_MARKERS.any (fun k => hasSubstr first_bg_sentence k) ||
    (!destination.isEmpty && hasSubstr first_bg_sentence (pyLower destination))
  { intro_has_dest := intro_has_dest
    bg_has_dest := bg_has_dest
    bridge_ok := bridge_ok
    ok := intro_has_dest && bg_has_dest && bridge_ok }

/-! ## Plausibility checks (lines 300-388) -/

def boundaryAfter : Str → Bool
  | [] => true
  | c :: _ => !isWordCode c

/-- Length consumed by the alternation `(?:min|minute|minuten)\b`
(tried in that order, each with the trailing word boundary), `none` when all
three fail. -/
def minuteUnitLen (s : Str) : Option Nat :=
  match matchLit (codes "min") s with
  | some r =>
    if boundaryAfter r then some 3
    else
      match matchLit (codes "minute") s with
      | some r2 =>
        if boundaryAfter r2 then some 6
        else
          match matchLit (codes "minuten") s with
          | some r3 => if boundaryAfter r3 then some 7 else none
          | none => none
      | none => none
  | none => none

def digitsToNatAux : Nat → Str → Nat
  | acc, [] => acc
  | acc, c :: rest => digitsToNatAux (acc * 10 + (c - 48)) rest

def digitsToNat (s : Str) : Nat := digitsToNatAux 0 s

/-- One attempt of `MINUTE_PAT = (\d+)\s*(?:min|minute|minuten)\b`
(case-insensitive; the scanners below lower-case the text first) at the head
of `s`: the captured number and the length of the whole match. -/
def minutePatAt (s : Str) : Option (Nat × Nat) :=
  match s with
  | c :: _ =>
    if isDigitCode c then
      let ds := s.takeWhile isDigitCode
      let afterWs := (s.drop ds.length).dropWhile isSpaceCode
      let wsLen := (s.drop ds.length).length - afterWs.length
      match minuteUnitLen afterWs with
      | some k => some (digitsToNat ds, ds.length + wsLen + k)
      | none => none
    else none
  | [] => none

/-- One attempt of
`RANGE_PAT = (\d+)\s*(?:–|-|bis)\s*(\d+)\s*(?:min|minute|minuten)\b` at the
head of `s`: the two captured numbers and the length of the whole match. -/
def rangePatAt (s : Str) : Option (Nat × Nat × Nat) :=
  match s with
  | c :: _ =>
    if isDigitCode c then
      let ds := s.takeWhile isDigitCode
      let s1 := s.drop ds.length
      let s2 := s1.dropWhile isSpaceCode
      let sepLen : Option Nat :=
        match s2 with
        | 8211 :: _ => some 1  -- en dash
        | 45 :: _ => some 1    -- hyphen
        | _ => if prefixAt (codes "bis") s2 then some 3 else none
      match sepLen with
      | some sl =>
        let s3 := (s2.drop sl).dropWhile isSpaceCode
        match s3 with
        | c2 :: _ =>
          if isDigitCode c2 then
            let ds2 := s3.takeWhile isDigitCode
            let s4 := (s3.drop ds2.length).dropWhile isSpaceCode
            match minuteUnitLen s4 with
            | some k =>
              some (digitsToNat ds, digitsToNat ds2,
                s.length - s4.length + k)
            | none => none
          else none
        | [] => none
      | none => none
    else none
  | [] => none

/-- Non-overlapping left-to-right scan with a head matcher that reports the
match length; mirrors `findall`. -/
def scanMinutesF : Nat → Str → List Nat
  | 0, _ => []
  | _, [] => []
  | fuel + 1, c :: rest =>
    match minutePatAt (c :: rest) with
    | some (v, k) => v :: scanMinutesF fuel (rest.drop (k - 1))
    | none => scanMinutesF fuel rest

def scanMinutes (s : Str) : List Nat := scanMinutesF s.length s

def scanRangesF : Nat → Str → List (Nat × Nat)
  | 0, _ => []
  | _, [] => []
  | fuel + 1, c :: rest =>
    match rangePatAt (c :: rest) with
    | some (lo, hi, k) => (lo, hi) :: scanRangesF fuel (rest.drop (k - 1))
    | none => scanRangesF fuel rest

def scanRanges (s : Str) : List (Nat × Nat) := scanRangesF s.length s

/-- `details_time_target` (lines 305-317): first range match, ordered; else
first single minute match, doubled; else nothing.  Both patterns carry
`re.IGNORECASE`, rendered by lower-casing the text first. -/
def details_time_target (details : Str) : Option (Nat × Nat) :=
  match scanRanges (pyLower details) with
  | (lo, hi) :: _ => if hi < lo then some (hi, lo) else some (lo, hi)
  | [] =>
    match scanMinutes (pyLower details) with
    | v :: _ => some (v, v)
    | [] => none

/-- `parse_minutes_in_text` (lines 319-328): both endpoints of every range
match, then every single-minute match. -/
def parse_minutes_in_text (text : Str) : List Nat :=
  ((scanRanges (pyLower text)).foldr (fun p acc => p.1 :: p.2 :: acc) []) ++
  scanMinutes (pyLower text)

def DISH_WORDS : List Str := [codes "schüssel", codes "schale", codes "becher"]
def POT_WORDS : List Str := [codes "topf", codes "töpfe", codes "töpfen"]
def OVEN_WORDS : List Str := [codes "backofen", codes "ofen"]
def KOCHER_WORDS : List Str := [codes "kocher", codes "campingkocher"]
def PFANNE_WORDS : List Str := [codes "pfanne", codes "guss", codes "gusseisen"]

/-- `count_matches(words, text)`: sum of whole-word matches over the
lower-cased text (the word lists are pairwise distinct, so the sum equals a
single pass counting runs that equal any list member). -/
def count_matches (words : List Str) (text : Str) : Nat :=
  countWholeWords words (pyLower text)

/-- `extract_portions` (lines 340-345). -/
def portionPatAt (s : Str) : Option Nat :=
  let tail : Str → Option Nat := fun r =>
    let r1 := r.dropWhile isSpaceCode
    let r2 :=
      match r1 with
      | 58 :: rest => rest.dropWhile isSpaceCode  -- ":"
      | 45 :: rest => rest.dropWhile isSpaceCode  -- "-"
      | _ => r1
    match r2 with
    | c :: _ => if isDigitCode c then some (digitsToNat (r2.takeWhile isDigitCode)) else none
    | [] => none
  match matchLit (codes "portion") s with
  | some r =>
    match tail r with
    | some v => some v
    | none =>
      match matchLit (codes "portionen") s with
      | some r2 => tail r2
      | none => none
  | none => none

def scanPortions : Str → Option Nat
  | [] => none
  | c :: rest =>
    match portionPatAt (c :: rest) with
    | some v => some v
    | none => scanPortions rest

def extract_portions (md : Str) : Option Nat :=
  let block := extract_section md (codes "Zeiten & Portionen")
  if block.isEmpty then none
  else scanPortions (pyLower block)

structure PlausibilityChecks where
  ok : Bool
  equipment_ok : Bool
  oven_ok : Bool
  abwasch_ok : Bool
  timing_ok : Bool
  portions_ok : Bool
  target_time : Option (Nat × Nat)
  found_minutes : List Nat
  portions : Option Nat
deriving DecidableEq

/-- `plausibility_checks(md, details)` (lines 347-388). -/
def plausibility_checks (md : Str) (details : Str) : PlausibilityChecks :=
  let text_lower := pyLower md
  let equipment_ok :=
    1 ≤ count_matches KOCHER_WORDS text_lower + count_matches PFANNE_WORDS text_lower
  let oven_ok :=
    if !hasSubstr (pyLower details) (codes "backofen") &&
       !hasSubstr (pyLower details) (codes "ofen") then
      count_matches OVEN_WORDS text_lower = 0
    else true
  let abwasch_ok :=
    if hasSubstr (pyLower details) (codes "wenig abwasch") then
      count_matches DISH_WORDS text_lower ≤ 1 && count_matches POT_WORDS text_lower ≤ 1
    else true
  let target := details_time_target details
  let found_minutes := parse_minutes_in_text md
  let timing_ok :=
    match target with
    | some (lo, hi) => found_minutes.any (fun m => lo - 2 ≤ m && m ≤ hi + 2)
    | none => true
  let portions := extract_portions md
  let portions_ok :=
    match portions with
    | none => true
    | some p => 1 ≤ p && p ≤ 8
  { ok := equipment_ok && oven_ok && abwasch_ok && timing_ok && portions_ok
    equipment_ok := equipment_ok
    oven_ok := oven_ok
    abwasch_ok := abwasch_ok
    timing_ok := timing_ok
    portions_ok := portions_ok
    target_time := target
    found_minutes := found_minutes
    portions := portions }

/-! ## SEO metadata lengths (lines 772-786) -/

/-- One attempt of `KEY\s*"([^"]+)"` at the head of `s` (the `KEY` literal
includes the colon); returns the quoted group. -/
def quotedValueAt (key : Str) (s : Str) : Option Str :=
  match matchLit key s with
  | some r =>
    match r.dropWhile isSpaceCode with
    | 34 :: rest =>
      let v := rest.takeWhile (fun c => c ≠ 34)
      if v.isEmpty then none
      else if rest.length = v.length then none  -- no closing quote
      else some v
    | _ => none
  | none => none

def scanQuotedValue (key : Str) : Str → Option Str
  | [] => none
  | c :: rest =>
    match quotedValueAt key (c :: rest) with
    | some v => some v
    | none => scanQuotedValue key rest

structure SeoMeta where
  title_len : Nat
  title_ok : Bool
  meta_len : Nat
  meta_ok : Bool
deriving DecidableEq

/-- `seo_lengths(md)`: first matches of `seo_title:\s*"([^"]+)"` and
`meta_description:\s*"([^"]+)"`, empty string when absent. -/
def seo_lengths (md : Str) : SeoMeta :=
  let title := (scanQuotedValue (codes "seo_title:") md).getD []
  let desc := (scanQuotedValue (codes "meta_description:") md).getD []
  { title_len := title.length
    title_ok := 10 ≤ title.length && title.length ≤ 60
    meta_len := desc.length
    meta_ok := 50 ≤ desc.length && desc.length ≤ 155 }

/-- `ich_in_first100` (lines 437-443): a first-person token among the first
100 body tokens. -/
def ich_in_first100 (md : Str) : Bool :=
  (((tokenize (pyStrip (dropFrontmatter md))).map pyLower).take 100).any
    (fun t => t ∈ FIRST_PERSON_WORDS)

/-! ## Heuristic evaluator (lines 788-832)

The `targets` dict.  The two float thresholds are carried as exact rationals:
`min_ttr = min_ttr_num / min_ttr_den`, and `min_var` is the integer 7 of the
source (`7.0`). -/

structure Targets where
  min_ttr_num : Nat
  min_ttr_den : Nat
  min_var : Nat
  min_first_person : Nat
  min_numbers : Nat
  min_words : Nat
  max_words : Nat
  min_second_person : Nat
  max_formal_address : Nat
deriving DecidableEq

/-- The `targets` dict built in `generate_article` (lines 683-692). -/
def mkTargets (min_words max_words : Nat) : Targets :=
  { min_ttr_num := 9, min_ttr_den := 20, min_var := 7,
    min_first_person := 6, min_numbers := 3,
    min_words := min_words, max_words := max_words,
    min_second_person := 2, max_formal_address := 0 }

structure StyleMetrics where
  ttr_uniq : Nat
  ttr_total : Nat
  sent_lens : List Nat
  first_person : Nat
  numbers : Nat
  words : Nat
  second_person : Nat
  formal_address : Nat
  has_banned : Bool
deriving DecidableEq

def styleMetrics (text : Str) : StyleMetrics :=
  { ttr_uniq := (ttrCounts text).1
    ttr_total := (ttrCounts text).2
    sent_lens := sentence_lengths text
    first_person := count_first_person text
    numbers := count_numbers text
    words := word_count text
    second_person := count_second_person text
    formal_address := count_formal_address text
    has_banned := has_banned_phrases text }

structure QualityReport where
  style_metrics : StyleMetrics
  structure_checks : StructureChecks
  seo_meta : SeoMeta
  coherence : CoherenceChecks
  plausibility : PlausibilityChecks
  ich_intro_ok : Bool
deriving DecidableEq

def structureAll (stc : StructureChecks) (seo : SeoMeta) : Bool :=
  stc.yaml_frontmatter && stc.h1_present &&
  stc.h2_einleitung && stc.h2_bg_tipps && stc.h2_rezept &&
  stc.h3_zutaten && stc.h3_schritte && stc.h3_zeiten &&
  stc.steps_ok && stc.kw_in_first100 &&
  seo.title_ok && seo.meta_ok

/-- `evaluate_quality(text, targets, primary_kw, destination, details)`:
every extractor is computed unconditionally, the verdict is the conjunction
of every threshold comparison. -/
def evaluate_quality (text : Str) (targets : Targets) (primary_kw : Str)
    (destination : Str) (details : Str) : Bool × QualityReport :=
  let sm := styleMetrics text
  let stc := check_structure text primary_kw
  let seo := seo_lengths text
  let coh := coherence_checks text destination
  let plaus := plausibility_checks text details
  let ich := ich_in_first100 text
  let ok :=
    !sm.has_banned &&
    ttr_check text targets.min_ttr_num targets.min_ttr_den &&
    var_check text targets.min_var &&
    targets.min_first_person ≤ sm.first_person &&
    targets.min_numbers ≤ sm.numbers &&
    (targets.min_words ≤ sm.words && sm.words ≤ targets.max_words) &&
    targets.min_second_person ≤ sm.second_person &&
    sm.formal_address ≤ targets.max_formal_address &&
    ich &&
    structureAll stc seo &&
    coh.ok &&
    plaus.ok
  (ok, { style_metrics := sm, structure_checks := stc, seo_meta := seo,
         coherence := coh, plausibility := plaus, ich_intro_ok := ich })

/-! ## Repair strategy selector (generate_article, lines 706-738)

The branch cascade of the repair loop, one remedy per round. -/

inductive Remedy where
  | ichRewrite
  | coherenceFix
  | plausibilityFix
  | duRewrite
  | structureFix
  | expand
  | condense
  | general
deriving DecidableEq

def selectRemedy (targets : Targets) (m : QualityReport) : Remedy :=
  if m.style_metrics.first_person < targets.min_first_person || !m.ich_intro_ok then
    .ichRewrite
  else if !m.coherence.ok then .coherenceFix
  else if !m.plausibility.ok then .plausibilityFix
  else if 0 < m.style_metrics.formal_address ||
      m.style_metrics.second_person < targets.min_second_person then .duRewrite
  else if !structureAll m.structure_checks m.seo_meta then .structureFix
  else if m.style_metrics.words < targets.min_words then .expand
  else if targets.max_words < m.style_metrics.words then .condense
  else .general

/-! ## Refinement orchestrator (generate_article, lines 606-768)

The generation service is abstracted as an oracle from the call index to the
returned text: the pipeline is sequential and deterministic, so for every
actual behaviour of the service there is an oracle producing the same
responses.  Prompt texts do not influence the control flow; the remedy chosen
each round is recorded in the result trace. -/

def DEST_MAPPING : List (Str × Str) :=
  [(codes "shakshuka", codes "Israel"), (codes "pad thai", codes "Thailand"),
   (codes "carbonara", codes "Italien"), (codes "khachapuri", codes "Georgien"),
   (codes "arepas", codes "Kolumbien"), (codes "laksa", codes "Malaysia"),
   (codes "ratatouille", codes "Frankreich"), (codes "paella", codes "Spanien"),
   (codes "chili", codes "USA"), (codes "bibimbap", codes "Südkorea")]

def guessDestinationAux : List (Str × Str) → Str → Str
  | [], _ => []
  | (dish, dest) :: rest, s => if hasSubstr s dish then dest else guessDestinationAux rest s

/-- `guess_destination` (lines 587-604). -/
def guess_destination (text : Str) : Str := guessDestinationAux DEST_MAPPING (pyLower text)

structure LoopState where
  doc : Str
  ok : Bool
  metrics : QualityReport

structure LoopOut where
  doc : Str
  ok : Bool
  metrics : QualityReport
  calls : Nat
  remedies : List Remedy

/-- The repair loop `while not ok and attempts < 6` (lines 696-746): one
remedy selection, one service call and one re-evaluation per round. -/
def repairLoop (oracle : Nat → Str) (targets : Targets)
    (pk dest details : Str) (idx : Nat) : Nat → LoopState → LoopOut
  | 0, st => { doc := st.doc, ok := st.ok, metrics := st.metrics, calls := 0, remedies := [] }
  | budget + 1, st =>
    if st.ok then
      { doc := st.doc, ok := st.ok, metrics := st.metrics, calls := 0, remedies := [] }
    else
      let rem := selectRemedy targets st.metrics
      let doc2 := oracle idx
      let r2 := evaluate_quality doc2 targets pk dest details
      let out := repairLoop oracle targets pk dest details (idx + 1) budget
        { doc := doc2, ok := r2.1, metrics := r2.2 }
      { doc := out.doc, ok := out.ok, metrics := out.metrics,
        calls := out.calls + 1, remedies := rem :: out.remedies }

/-- The forced-expansion fallback (lines 748-761): two further rounds when the
loop left a failing verdict with the document still too short, breaking on the
first passing verdict. -/
def forceExpand (oracle : Nat → Str) (targets : Targets)
    (pk dest details : Str) (idx : Nat) (min_words : Nat) (st : LoopState) :
    LoopState × Nat :=
  if !st.ok && st.metrics.style_metrics.words < min_words then
    let d1 := oracle idx
    let r1 := evaluate_quality d1 targets pk dest details
    if r1.1 then ({ doc := d1, ok := r1.1, metrics := r1.2 }, 1)
    else
      let d2 := oracle (idx + 1)
      let r2 := evaluate_quality d2 targets pk dest details
      ({ doc := d2, ok := r2.1, metrics := r2.2 }, 2)
  else (st, 0)

structure GenResult where
  draft : Str
  final : Str
  metrics : QualityReport
  passed_heuristics : Bool
  repairCalls : Nat
  fallbackCalls : Nat
  totalCalls : Nat
  remedies : List Remedy

/-- `generate_article` (humanizer_claude.py, lines 606-768): three initial
passes (draft, clean, style edit), evaluation, at most six repair rounds, then
at most two forced expansions; always returns draft, final text, metrics and
verdict. -/
def pkOf (topic primary_kw : Str) : Str :=
  if (pyStrip primary_kw).isEmpty then topic else pyStrip primary_kw

def destOf (topic pk destination : Str) : Str :=
  pyStrip (if destination.isEmpty then
    guess_destination (topic ++ [32] ++ pk) else destination)

def generate_article (oracle : Nat → Str) (topic details primary_kw destination : Str)
    (min_words max_words : Nat) : GenResult :=
  let pk := pkOf topic primary_kw
  let dest := destOf topic pk destination
  let draft := oracle 0
  let _cleaned := oracle 1
  let edited := oracle 2
  let targets := mkTargets min_words max_words
  let r0 := evaluate_quality edited targets pk dest details
  let out := repairLoop oracle targets pk dest details 3 6
    { doc := edited, ok := r0.1, metrics := r0.2 }
  let fb := forceExpand oracle targets pk dest details (3 + out.calls)
    min_words { doc := out.doc, ok := out.ok, metrics := out.metrics }
  { draft := draft
    final := fb.1.doc
    metrics := fb.1.metrics
    passed_heuristics := fb.1.ok
    repairCalls := out.calls
    fallbackCalls := fb.2
    totalCalls := 3 + out.calls + fb.2
    remedies := out.remedies }

/-! ## The humanizer_pipeline_lang.py variant (for the terminal-result claim)

This sibling pipeline shares the tokenizer and most extractors but has its own
first-person vocabulary, counts the formal pronouns as plain (unanchored)
substrings, uses `fails_heuristics` with its own thresholds and a repair loop
of at most 3 attempts — and its `generate_article` (lines 268-353) ends after
the loop without a `return` statement, so every successful run yields `None`. -/

namespace Lang

def FIRST_PERSON_WORDS : List Str :=
  [codes "ich", codes "wir", codes "mich", codes "uns", codes "mein", codes "unser"]

/-- `count_first_person` (humanizer_pipeline_lang.py line 141). -/
def count_first_person (text : Str) : Nat :=
  countWholeWords FIRST_PERSON_WORDS (pyLower text)

/-- Non-overlapping substring occurrence count (`len(re.findall(w, text))`
for a literal pattern `w`). -/
def countSubstrOccF (pat : Str) : Nat → Str → Nat
  | 0, _ => 0
  | _, [] => 0
  | fuel + 1, c :: t =>
    if prefixAt pat (c :: t) then 1 + countSubstrOccF pat fuel (t.drop (pat.length - 1))
    else countSubstrOccF pat fuel t

def countSubstrOcc (pat s : Str) : Nat := countSubstrOccF pat s.length s

def FORMAL_ADDRESS_WORDS : List Str :=
  [codes "Sie", codes "Ihnen", codes "Ihr", codes "Ihre", codes "Ihrem",
   codes "Ihren", codes "Ihrer", codes "Ihres"]

/-- `count_formal_address` (line 154): the patterns carry no `\b` anchors in
this file, so these are raw substring counts. -/
def count_formal_address (text : Str) : Nat :=
  (FORMAL_ADDRESS_WORDS.map (fun w => countSubstrOcc w text)).foldl (· + ·) 0

structure LangMetrics where
  first_person : Nat
  numbers : Nat
  words : Nat
  second_person : Nat
  formal_address : Nat
  has_banned : Bool
deriving DecidableEq

/-- `fails_heuristics(text, targets)` (lines 158-188) at the target values of
`generate_article` (min_first_person 3, min_second_person 4, ttr 0.45, pstdev
7.0, max_formal_address 0). -/
def fails_heuristics (text : Str) (min_words max_words : Nat) : Bool × LangMetrics :=
  let m : LangMetrics :=
    { first_person := count_first_person text
      numbers := count_numbers text
      words := word_count text
      second_person := count_second_person text
      formal_address := count_formal_address text
      has_banned := has_banned_phrases text }
  let fail :=
    m.has_banned ||
    !ttr_check text 9 20 ||
    !var_check text 7 ||
    m.first_person < 3 ||
    m.numbers < 3 ||
    m.words < min_words ||
    max_words < m.words ||
    m.second_person < 4 ||
    0 < m.formal_address
  (fail, m)

/-- The dict shape `generate_article` is declared to return
(`Dict[str, Any]` with keys draft, final, metrics, passed_heuristics). -/
structure LangResult where
  draft : Str
  final : Str
  metrics : LangMetrics
  passed_heuristics : Bool

def repairLoop3 (oracle : Nat → Str) (min_words max_words : Nat) (idx : Nat) :
    Nat → Str → Bool → LangMetrics → Str × Bool × LangMetrics
  | 0, doc, fail, m => (doc, fail, m)
  | budget + 1, doc, fail, m =>
    if fail then
      let doc2 := oracle idx
      let r2 := fails_heuristics doc2 min_words max_words
      repairLoop3 oracle min_words max_words (idx + 1) budget doc2 r2.1 r2.2
    else (doc, fail, m)

/-- `generate_article` (humanizer_pipeline_lang.py lines 268-353): the `de`
check, three passes, the bounded repair loop — and then the function body
ends.  Python therefore returns `None`; the embedding returns `none`. -/
def generate_article (oracle : Nat → Str) (_topic _details lang : Str)
    (min_words max_words : Nat) : Except Str (Option LangResult) :=
  if !(prefixAt (codes "de") (pyLower lang)) then
    Except.error (codes "Only de supported in this template.")
  else
    let _draft := oracle 0
    let _cleaned := oracle 1
    let edited := oracle 2
    let r0 := fails_heuristics edited min_words max_words
    let _looped := repairLoop3 oracle min_words max_words 3 3 edited r0.1 r0.2
    Except.ok none

end Lang

/-! ## Concrete documents for the scenario claims -/

/-- A concrete passing document for the first-try scenario. -/
def docW : Str := codes "---
seo_title: \"Karpatka Rezept für unterwegs im Camper\"
meta_description: \"Karpatka mit Brandteig und Puddingcreme gelingt unterwegs auf dem Campingkocher in Polen.\"
---
# Karpatka im Camper
## Einleitung
Ich stehe in Polen am Feldrand und koche auf meinem Campingkocher die Creme für eine Karpatka. Kurz halte ich inne. Mir gelingt der Brandteig hier draußen besser als daheim, und du siehst gleich, warum ich das mag.
## Hintergrund & Tipps
Meine erste Karpatka gab es in Polen, mitten in den Bergen. Seitdem backe ich sie auf jeder Tour. Mich stört dabei wenig. Dein Vorteil: wenig Gerät, viel Geschmack.
## Rezept: Karpatka
### Zutaten
- Wasser, Butter, Mehl, Eier, Salz
- Milch, Zucker, Puddingpulver
### Schritt für Schritt
1. Wasser mit Butter in der Pfanne aufkochen.
2. Mehl zugeben und kräftig abbrennen.
3. Eier einzeln unterrühren.
4. Beide Platten auf dem Kocher backen, je 12 Minuten.
5. Creme kochen und abkühlen lassen.
6. Butter unterschlagen.
7. Platten füllen und kalt stellen.
### Zeiten & Portionen
- Portionen: 6
### Packliste
bab bad baf bag bak bal bam ban bap bar bas bat bav baz beb bed bef beg bek bel bem ben bep ber bes bet bev bez bib bid bif big bik bil bim bin bip bir bis bit biv biz bob bod bof
bog bok bol bom bon bop bor bos bot bov boz bub bud buf bug buk bul bum bun bup bur bus but buv buz dab dad daf dag dak dal dam dap dar das dat dav daz deb ded def deg dek del dem
dep det dev dez dib did dif dig dik dil dim dip dis dit div diz dob dod dof dog dok dol dom dop dor dos dot dov doz dub dud duf dug duk dul dum dup dus dut duv duz fab fad faf fag
fak fal fam fan fap far fas fat fav faz feb fed fef feg fek fel fem fen fep fer fes fet fev fez fib fid fif fig fik fil fim fin fip fir fis fit fiv fiz fob fod fof fog fok fol fom
fon fop for fos fot fov foz fub fud fuf fug fuk ful fum fun fup fur fus fut fuv fuz gab gad gaf gag gak gal gam gan gap gar gas gat gav gaz geb ged gef geg gek gel gem gen gep ger
ges get gev gez gib gid gif gig gik gil gim gin gip gir gis git giv giz gob god gof gog gok gol gom gon gop gor gos got gov goz gub gud guf gug guk gul gum gun gup gur gut guv guz
kab kad kaf kag kak kal kam kan kap kar kas kat kav kaz keb ked kef keg kek kel kem ken kep ker kes ket kev kez kib kid kif kig kik kil kim kin kip kir kis kit kiv kiz kob kod kof
kog kok kol kom kon kop kor kos kot kov koz kub kud kuf kug kuk kul kum kun kup kur kus kut kuv kuz lab lad laf lag lak lal lam lan lap lar las lat lav laz leb led lef leg lek lel
lem len lep ler les let lev lez lib lid lif lig lik lil lim lin lip lir lis lit liv liz lob lod lof log lok lol lom lon lop lor los lot lov loz lub lud luf lug luk lul lum lun lup
lur lus lut luv luz mab mad maf mag mak mal mam man map mar mas mat mav maz meb med mef meg mek mel mem men mep mer mes met mev mez mib mid mif mig mik mil mim mip mis miv miz mob
mod mof mog mok mol mom mon mop mor mos mot mov moz mub mud muf mug muk mul mum mun mup mur mus mut muv muz nab nad naf nag nak nal nam nan nap nar nas nat nav naz neb ned nef neg
nek nel nem nen nep ner nes net nev nez nib nid nif nig nik nil nim nin nip nir nis nit niv niz nob nod nof nog nok nol nom non nop nor nos not nov noz nub nud nuf nug nuk nul num
nun nup nur nus nut nuv nuz pab pad paf pag pak pal pam pan pap par pas pat pav paz peb ped pef peg pek pel pem pen pep per pes pet pev pez pib pid pif pig pik pil pim pin pip pir"

/-- The same document with the cooker/pan vocabulary replaced, so that only
the domain-plausibility equipment check fails. -/
def docC : Str := codes "---
seo_title: \"Karpatka Rezept für unterwegs im Camper\"
meta_description: \"Karpatka mit Brandteig und Puddingcreme gelingt unterwegs auf kleiner Flamme in Polen.\"
---
# Karpatka im Camper
## Einleitung
Ich stehe in Polen am Feldrand und koche auf kleiner Flamme die Creme für eine Karpatka. Kurz halte ich inne. Mir gelingt der Brandteig hier draußen besser als daheim, und du siehst gleich, warum ich das mag.
## Hintergrund & Tipps
Meine erste Karpatka gab es in Polen, mitten in den Bergen. Seitdem backe ich sie auf jeder Tour. Mich stört dabei wenig. Dein Vorteil: wenig Gerät, viel Geschmack.
## Rezept: Karpatka
### Zutaten
- Wasser, Butter, Mehl, Eier, Salz
- Milch, Zucker, Puddingpulver
### Schritt für Schritt
1. Wasser mit Butter im Reisetopf aufkochen.
2. Mehl zugeben und kräftig abbrennen.
3. Eier einzeln unterrühren.
4. Beide Platten auf dem Brenner backen, je 12 Minuten.
5. Creme kochen und abkühlen lassen.
6. Butter unterschlagen.
7. Platten füllen und kalt stellen.
### Zeiten & Portionen
- Portionen: 6
### Packliste
bab bad baf bag bak bal bam ban bap bar bas bat bav baz beb bed bef beg bek bel bem ben bep ber bes bet bev bez bib bid bif big bik bil bim bin bip bir bis bit biv biz bob bod bof
bog bok bol bom bon bop bor bos bot bov boz bub bud buf bug buk bul bum bun bup bur bus but buv buz dab dad daf dag dak dal dam dap dar das dat dav daz deb ded def deg dek del dem
dep det dev dez dib did dif dig dik dil dim dip dis dit div diz dob dod dof dog dok dol dom dop dor dos dot dov doz dub dud duf dug duk dul dum dup dus dut duv duz fab fad faf fag
fak fal fam fan fap far fas fat fav faz feb fed fef feg fek fel fem fen fep fer fes fet fev fez fib fid fif fig fik fil fim fin fip fir fis fit fiv fiz fob fod fof fog fok fol fom
fon fop for fos fot fov foz fub fud fuf fug fuk ful fum fun fup fur fus fut fuv fuz gab gad gaf gag gak gal gam gan gap gar gas gat gav gaz geb ged gef geg gek gel gem gen gep ger
ges get gev gez gib gid gif gig gik gil gim gin gip gir gis git giv giz gob god gof gog gok gol gom gon gop gor gos got gov goz gub gud guf gug guk gul gum gun gup gur gut guv guz
kab kad kaf kag kak kal kam kan kap kar kas kat kav kaz keb ked kef keg kek kel kem ken kep ker kes ket kev kez kib kid kif kig kik kil kim kin kip kir kis kit kiv kiz kob kod kof
kog kok kol kom kon kop kor kos kot kov koz kub kud kuf kug kuk kul kum kun kup kur kus kut kuv kuz lab lad laf lag lak lal lam lan lap lar las lat lav laz leb led lef leg lek lel
lem len lep ler les let lev lez lib lid lif lig lik lil lim lin lip lir lis lit liv liz lob lod lof log lok lol lom lon lop lor los lot lov loz lub lud luf lug luk lul lum lun lup
lur lus lut luv luz mab mad maf mag mak mal mam man map mar mas mat mav maz meb med mef meg mek mel mem men mep mer mes met mev mez mib mid mif mig mik mil mim mip mis miv miz mob
mod mof mog mok mol mom mon mop mor mos mot mov moz mub mud muf mug muk mul mum mun mup mur mus mut muv muz nab nad naf nag nak nal nam nan nap nar nas nat nav naz neb ned nef neg
nek nel nem nen nep ner nes net nev nez nib nid nif nig nik nil nim nin nip nir nis nit niv niz nob nod nof nog nok nol nom non nop nor nos not nov noz nub nud nuf nug nuk nul num
nun nup nur nus nut nuv nuz pab pad paf pag pak pal pam pan pap par pas pat pav paz peb ped pef peg pek pel pem pen pep per pes pet pev pez pib pid pif pig pik pil pim pin pip pir"

def pkW : Str := codes "Karpatka"
def destW : Str := codes "Polen"
def detailsW : Str := codes "Brandteig, Campingkocher, 12–14 Min kochen"

/-! ## Concrete diagnostic reports for the selector claims -/

def stcAllTrue : StructureChecks :=
  { yaml_frontmatter := true, h1_present := true, h1_contains_primary_kw := true,
    h2_einleitung := true, h2_bg_tipps := true, h2_rezept := true,
    h3_zutaten := true, h3_schritte := true, h3_zeiten := true,
    steps_count := 7, steps_ok := true, kw_in_first100 := true }

def seoOk : SeoMeta := { title_len := 30, title_ok := true, meta_len := 80, meta_ok := true }

def cohOk : CoherenceChecks :=
  { intro_has_dest := true, bg_has_dest := true, bridge_ok := true, ok := true }

def plausFail : PlausibilityChecks :=
  { ok := false, equipment_ok := false, oven_ok := true, abwasch_ok := true,
    timing_ok := true, portions_ok := true, target_time := none,
    found_minutes := [], portions := none }

def plausOk : PlausibilityChecks :=
  { ok := true, equipment_ok := true, oven_ok := true, abwasch_ok := true,
    timing_ok := true, portions_ok := true, target_time := none,
    found_minutes := [], portions := none }

def smShort : StyleMetrics :=
  { ttr_uniq := 300, ttr_total := 500, sent_lens := [30, 5, 10, 2],
    first_person := 10, numbers := 5, words := 500, second_person := 5,
    formal_address := 0, has_banned := false }

/-- Report: every check above word count passes, the document is too short and
the domain-plausibility check fails. -/
def repC2a : QualityReport :=
  { style_metrics := smShort, structure_checks := stcAllTrue, seo_meta := seoOk,
    coherence := cohOk, plausibility := plausFail, ich_intro_ok := true }

/-- Report: like `repC2a` but with the domain-plausibility check passing. -/
def repC2b : QualityReport :=
  { style_metrics := smShort, structure_checks := stcAllTrue, seo_meta := seoOk,
    coherence := cohOk, plausibility := plausOk, ich_intro_ok := true }

/-- Report: voice check fails (2 first-person markers, opening window fails)
and the structural checks fail as well. -/
def repC5 : QualityReport :=
  { style_metrics :=
    { ttr_uniq := 300, ttr_total := 500, sent_lens := [30, 5, 10, 2],
      first_person := 2, numbers := 5, words := 800, second_person := 5,
      formal_address := 0, has_banned := false }
    structure_checks := { stcAllTrue with h2_einleitung := false, yaml_frontmatter := false }
    seo_meta := seoOk, coherence := cohOk, plausibility := plausOk,
    ich_intro_ok := false }

/-- Concrete inputs for the timing-mismatch scenario. -/
def md9 : Str := codes "Ich koche 20 Minuten"

def details9 : Str := codes "12–14 Min kochen"

/-- A document that contains none of the expected sections or metadata. -/
def md8 : Str := codes "kein Artikel"

/-! ## Structural Normalizer

Modelled from the spec: the repository contains no implementation of the
Structural Normalizer (spec section 4.4); no source file defines a
normalization/cleanup pass.  The seven steps are therefore modelled from the
spec's own wording, over a structured document value (metadata header plus an
ordered list of named sections holding paragraph lines, a bulleted list and a
numbered list).  Step 6 is read as applying to content lines — blank lines
are kept, otherwise step 7 (collapsing blank-line runs) could never apply.
The configuration (allowed/disallowed headings, the free-form heading
pattern, the background/optional/procedure section names, the tip-line
classifier and the two caps) is abstract. -/

structure NormSection where
  heading : Str
  paras : List Str
  bullets : List Str
  numbered : List (Nat × Str)
deriving DecidableEq

structure NormDoc where
  header : List Str
  sections : List NormSection
deriving DecidableEq

structure NormConfig where
  allowed : List Str
  disallowed : List Str
  freeForm : Str → Bool
  bgName : Str
  optName : Str
  procName : Str
  tipLike : Str → Bool
  bulletCap : Nat
  stepCap : Nat

/-- Line key for duplicate detection: trimmed, internal whitespace collapsed,
lower-cased. -/
def squishAux : Bool → Str → Str
  | _, [] => []
  | prevSpace, c :: rest =>
    if isSpaceCode c then
      if prevSpace then squishAux true rest else 32 :: squishAux true rest
    else c :: squishAux false rest

def normKey (l : Str) : Str := pyLower (squishAux false (pyStrip l))

def isBlankLine (l : Str) : Bool := (pyStrip l).isEmpty

/-- Deduplication by `normKey`, first occurrence kept. -/
def dedupByKeyAux (seen : List Str) : List Str → List Str
  | [] => []
  | x :: rest =>
    if normKey x ∈ seen then dedupByKeyAux seen rest
    else x :: dedupByKeyAux (normKey x :: seen) rest

def dedupByKey (l : List Str) : List Str := dedupByKeyAux [] l

def capDedup (cap : Nat) (l : List Str) : List Str := (dedupByKey l).take cap

/-- Step 1: remove sections with a disallowed heading, or a heading neither
allowed nor a permitted free-form pattern. -/
def normStep1 (cfg : NormConfig) (d : NormDoc) : NormDoc :=
  { d with sections := d.sections.filter (fun s =>
      !decide (s.heading ∈ cfg.disallowed) &&
      (decide (s.heading ∈ cfg.allowed) || cfg.freeForm s.heading)) }

/-- Step 2: consolidate tip-like lines of the background section into its
bulleted list, deduplicated and capped, first-seen order preserved. -/
def consolidateTips (cfg : NormConfig) (s : NormSection) : NormSection :=
  if s.heading = cfg.bgName then
    { s with
      bullets := capDedup cfg.bulletCap (s.bullets ++ s.paras.filter cfg.tipLike)
      paras := s.paras.filter (fun l => !cfg.tipLike l) }
  else s

def normStep2 (cfg : NormConfig) (d : NormDoc) : NormDoc :=
  { d with sections := d.sections.map (consolidateTips cfg) }

/-- Step 3: keep only the first instance of the singly-permitted optional
section, capping its list length. -/
def collapseOptAux (optName : Str) (cap : Nat) : Bool → List NormSection → List NormSection
  | _, [] => []
  | seen, s :: rest =>
    if s.heading = optName then
      if seen then collapseOptAux optName cap true rest
      else { s with bullets := s.bullets.take cap } :: collapseOptAux optName cap true rest
    else s :: collapseOptAux optName cap seen rest

def normStep3 (cfg : NormConfig) (d : NormDoc) : NormDoc :=
  { d with sections := collapseOptAux cfg.optName cfg.bulletCap false d.sections }

/-- Step 4: cap every bulleted list. -/
def normStep4 (cfg : NormConfig) (d : NormDoc) : NormDoc :=
  { d with sections := d.sections.map (fun s =>
      { s with bullets := s.bullets.take cfg.bulletCap }) }

/-- Step 5: renumber the procedure section's numbered list contiguously from
1, dropping items beyond the cap. -/
def numberFrom : Nat → List Str → List (Nat × Str)
  | _, [] => []
  | n, x :: rest => (n, x) :: numberFrom (n + 1) rest

def renumberCap (cap : Nat) (l : List (Nat × Str)) : List (Nat × Str) :=
  numberFrom 1 ((l.map Prod.snd).take cap)

def normStep5 (cfg : NormConfig) (d : NormDoc) : NormDoc :=
  { d with sections := d.sections.map (fun s =>
      if s.heading = cfg.procName then { s with numbered := renumberCap cfg.stepCap s.numbered }
      else s) }

/-- Step 6: remove whole-document duplicate content lines outside the
metadata header, preserving first occurrences (blank lines kept). -/
def dedupLinesAux (seen : List Str) : List Str → List Str × List Str
  | [] => ([], seen)
  | x :: rest =>
    if isBlankLine x then
      let r := dedupLinesAux seen rest
      (x :: r.1, r.2)
    else if normKey x ∈ seen then dedupLinesAux seen rest
    else
      let r := dedupLinesAux (normKey x :: seen) rest
      (x :: r.1, r.2)

def dedupSectionsAux (seen : List Str) : List NormSection → List NormSection
  | [] => []
  | s :: rest =>
    let r := dedupLinesAux seen s.paras
    { s with paras := r.1 } :: dedupSectionsAux r.2 rest

def normStep6 (_cfg : NormConfig) (d : NormDoc) : NormDoc :=
  { d with sections := dedupSectionsAux [] d.sections }

/-- Step 7: collapse runs of 3 or more blank lines to one blank line, and end
the document after its last content line (exactly one trailing newline in the
rendered text). -/
def emitPending (pending : List Str) : List Str :=
  if 3 ≤ pending.length then pending.take 1 else pending

def collapseBlanksAux (pending : List Str) : List Str → List Str
  | [] => emitPending pending
  | x :: rest =>
    if isBlankLine x then collapseBlanksAux (pending ++ [x]) rest
    else emitPending pending ++ x :: collapseBlanksAux [] rest

def collapseBlanks (l : List Str) : List Str := collapseBlanksAux [] l

def dropTrailingBlanks (l : List Str) : List Str :=
  (l.reverse.dropWhile isBlankLine).reverse

def mapLastSection (f : NormSection → NormSection) : List NormSection → List NormSection
  | [] => []
  | [s] => [f s]
  | s :: rest => s :: mapLastSection f rest

def normStep7 (_cfg : NormConfig) (d : NormDoc) : NormDoc :=
  let collapsed := d.sections.map (fun s => { s with paras := collapseBlanks s.paras })
  let dropped := mapLastSection (fun s => { s with paras := dropTrailingBlanks s.paras }) collapsed
  { d with sections := dropped }

/-- Modelled from the spec: the Structural Normalizer, the composition of the
seven steps of spec section 4.4 in their stated order. -/
def normalize (cfg : NormConfig) (d : NormDoc) : NormDoc :=
  normStep7 cfg (normStep6 cfg (normStep5 cfg (normStep4 cfg
    (normStep3 cfg (normStep2 cfg (normStep1 cfg d))))))

/-! Auxiliary notions used to reason about the normalizer: the two per-section
transformations of step 7 under their own names, the whole pipeline expressed
on a bare section list, and inductive characterisations of deduplicated
(`KeysFresh`, `FreshLines`, `FreshSections`) and blank-run-limited
(`runsOkAux`) data. -/

def nzCollapseSec (s : NormSection) : NormSection :=
  { s with paras := collapseBlanks s.paras }

def nzDropSec (s : NormSection) : NormSection :=
  { s with paras := dropTrailingBlanks s.paras }

def nzStep7L (ss : List NormSection) : List NormSection :=
  mapLastSection nzDropSec (ss.map nzCollapseSec)

/-- The per-section transformation of step 4. -/
def nzCapSec (cfg : NormConfig) (s : NormSection) : NormSection :=
  { s with bullets := s.bullets.take cfg.bulletCap }

/-- The per-section transformation of step 5. -/
def nzRenumSec (cfg : NormConfig) (s : NormSection) : NormSection :=
  if s.heading = cfg.procName then
    { s with numbered := renumberCap cfg.stepCap s.numbered }
  else s

/-- The sections of `normalize cfg d`, as a function of the input sections. -/
def nzSections (cfg : NormConfig) (ss : List NormSection) : List NormSection :=
  nzStep7L (dedupSectionsAux []
    (((collapseOptAux cfg.optName cfg.bulletCap false
        ((ss.filter (fun s =>
            !decide (s.heading ∈ cfg.disallowed) &&
            (decide (s.heading ∈ cfg.allowed) || cfg.freeForm s.heading))).map
          (consolidateTips cfg))).map
        (nzCapSec cfg)).map
      (nzRenumSec cfg)))

def headsOf (ss : List NormSection) : List Str := ss.map NormSection.heading

/-- Every line's key is new relative to `seen` plus the keys before it. -/
def KeysFresh : List Str → List Str → Prop
  | _, [] => True
  | seen, x :: rest => normKey x ∉ seen ∧ KeysFresh (normKey x :: seen) rest

/-- Like `KeysFresh` but skipping blank lines, matching `dedupLinesAux`. -/
def FreshLines : List Str → List Str → Prop
  | _, [] => True
  | seen, x :: rest =>
    if isBlankLine x then FreshLines seen rest
    else normKey x ∉ seen ∧ FreshLines (normKey x :: seen) rest

/-- Section-list version of `FreshLines`, threading the seen set the same way
`dedupSectionsAux` does. -/
def FreshSections : List Str → List NormSection → Prop
  | _, [] => True
  | seen, s :: rest =>
    FreshLines seen s.paras ∧ FreshSections (dedupLinesAux seen s.paras).2 rest

/-- Every maximal run of blank lines (the run in progress has length `c`) has
length at most 2, including a trailing run. -/
def runsOkAux : Nat → List Str → Bool
  | c, [] => decide (c ≤ 2)
  | c, x :: rest =>
    if isBlankLine x then runsOkAux (c + 1) rest
    else decide (c ≤ 2) && runsOkAux 0 rest

/-- Pointwise relation between a transformed section and its source: all
fields equal except that the paragraph lines may form a sublist. -/
def nzR (s' s : NormSection) : Prop :=
  s'.heading = s.heading ∧ s'.bullets = s.bullets ∧ s'.numbered = s.numbered ∧
    s'.paras.Sublist s.paras

def nzRL : List NormSection → List NormSection → Prop
  | [], [] => True
  | s' :: l', s :: l => nzR s' s ∧ nzRL l' l
  | _, _ => False

/-! ## Theorems -/

/-- C6: the Evaluator has no early exit — the report always carries every
check category computed by the extractors, even when the verdict is false,
and the verdict is true exactly when every individual threshold comparison
and boolean check holds. -/
theorem c6_evaluator_no_early_exit (text : Str) (tg : Targets) (pk dest details : Str) :
    (evaluate_quality text tg pk dest details).2 =
      { style_metrics := styleMetrics text, structure_checks := check_structure text pk,
        seo_meta := seo_lengths text, coherence := coherence_checks text dest,
        plausibility := plausibility_checks text details,
        ich_intro_ok := ich_in_first100 text } ∧
    ((evaluate_quality text tg pk dest details).1 = true ↔
      ((styleMetrics text).has_banned = false ∧
       ttr_check text tg.min_ttr_num tg.min_ttr_den = true ∧
       var_check text tg.min_var = true ∧
       tg.min_first_person ≤ (styleMetrics text).first_person ∧
       tg.min_numbers ≤ (styleMetrics text).numbers ∧
       (tg.min_words ≤ (styleMetrics text).words ∧ (styleMetrics text).words ≤ tg.max_words) ∧
       tg.min_second_person ≤ (styleMetrics text).second_person ∧
       (styleMetrics text).formal_address ≤ tg.max_formal_address ∧
       ich_in_first100 text = true ∧
       structureAll (check_structure text pk) (seo_lengths text) = true ∧
       (coherence_checks text dest).ok = true ∧
       (plausibility_checks text details).ok = true)) := by
  refine ⟨rfl, ?_⟩
  simp only [evaluate_quality, Bool.and_eq_true, decide_eq_true_eq, Bool.not_eq_true']
  tauto

/-- C5: monotonic priority of the voice remedy — whenever the voice check
fails (first-person markers below threshold or the opening-window check
fails), the Selector chooses the narrator-voice rewrite, never the structure
remedy, also when the structural checks fail simultaneously. -/
theorem c5_voice_over_structure (tg : Targets) (m : QualityReport)
    (hv : m.style_metrics.first_person < tg.min_first_person ∨ m.ich_intro_ok = false)
    (_hs : structureAll m.structure_checks m.seo_meta = false) :
    selectRemedy tg m = Remedy.ichRewrite ∧ selectRemedy tg m ≠ Remedy.structureFix := by
  have hcond : (decide (m.style_metrics.first_person < tg.min_first_person) ||
      !m.ich_intro_ok) = true := by
    rcases hv with h | h
    · simp [h]
    · simp [h]
  unfold selectRemedy
  rw [if_pos]
  · exact ⟨rfl, by simp⟩
  · simpa using hcond

/-- C5 witness: a concrete report with failing voice and structure checks. -/
theorem c5_voice_over_structure_witness :
    selectRemedy (mkTargets 700 1000) repC5 = Remedy.ichRewrite ∧
    selectRemedy (mkTargets 700 1000) repC5 ≠ Remedy.structureFix :=
  c5_voice_over_structure (mkTargets 700 1000) repC5 (Or.inl (by decide)) (by decide)

/-- C2 counterexample: a diagnostic report in which voice, coherence,
schema, address and structural/metadata checks all pass and the word count is
below the minimum, but the domain-plausibility check is false — the Selector
does not choose the expansion remedy (it chooses the plausibility remedy,
which ranks above the word-count remedies in the code). -/
theorem c2_counterexample :
    (¬ repC2a.style_metrics.first_person < (mkTargets 700 1000).min_first_person) ∧
    repC2a.ich_intro_ok = true ∧
    repC2a.coherence.ok = true ∧
    repC2a.style_metrics.formal_address = 0 ∧
    (¬ repC2a.style_metrics.second_person < (mkTargets 700 1000).min_second_person) ∧
    structureAll repC2a.structure_checks repC2a.seo_meta = true ∧
    repC2a.style_metrics.words < (mkTargets 700 1000).min_words ∧
    repC2a.plausibility.ok = false ∧
    selectRemedy (mkTargets 700 1000) repC2a ≠ Remedy.expand := by decide

/-- C2 amended: under the claim's premises the expansion remedy is selected
only when the domain-plausibility check also passes; when it is false the
plausibility remedy is selected instead, because in the Selector the
plausibility remedy ranks above the word-count remedies. -/
theorem c2_expand_vs_plausibility (tg : Targets) (m : QualityReport)
    (h1 : ¬ m.style_metrics.first_person < tg.min_first_person)
    (h2 : m.ich_intro_ok = true)
    (h3 : m.coherence.ok = true)
    (h4 : m.style_metrics.formal_address = 0)
    (h5 : ¬ m.style_metrics.second_person < tg.min_second_person)
    (h6 : structureAll m.structure_checks m.seo_meta = true)
    (h7 : m.style_metrics.words < tg.min_words) :
    (m.plausibility.ok = true → selectRemedy tg m = Remedy.expand) ∧
    (m.plausibility.ok = false → selectRemedy tg m = Remedy.plausibilityFix) := by
  constructor
  · intro hp
    simp [selectRemedy, h1, h2, h3, h4, h5, h6, h7, hp]
  · intro hp
    simp [selectRemedy, h1, h2, h3, hp]

/-- C2 witness: both branches of the amended statement at concrete reports. -/
theorem c2_expand_vs_plausibility_witness :
    selectRemedy (mkTargets 700 1000) repC2b = Remedy.expand ∧
    selectRemedy (mkTargets 700 1000) repC2a = Remedy.plausibilityFix :=
  ⟨(c2_expand_vs_plausibility (mkTargets 700 1000) repC2b (by decide) (by decide)
      (by decide) (by decide) (by decide) (by decide) (by decide)).1 (by decide),
   (c2_expand_vs_plausibility (mkTargets 700 1000) repC2a (by decide) (by decide)
      (by decide) (by decide) (by decide) (by decide) (by decide)).2 (by decide)⟩

/-- C9: a "12–14 minutes" constraint in the details together with a document
whose only time mention is 20 minutes makes the timing sub-check false (20 is
outside the ±2 tolerance window of [12,14]) and the overall verdict false. -/
theorem c9_timing_mismatch (md details : Str) (tg : Targets) (pk dest : Str)
    (ht : details_time_target details = some (12, 14))
    (hm : parse_minutes_in_text md = [20]) :
    (plausibility_checks md details).timing_ok = false ∧
    (evaluate_quality md tg pk dest details).1 = false := by
  have htiming : (plausibility_checks md details).timing_ok = false := by
    simp [plausibility_checks, ht, hm]
  refine ⟨htiming, ?_⟩
  have hok : (plausibility_checks md details).ok = false := by
    have : (plausibility_checks md details).ok =
        ((plausibility_checks md details).equipment_ok &&
         (plausibility_checks md details).oven_ok &&
         (plausibility_checks md details).abwasch_ok &&
         (plausibility_checks md details).timing_ok &&
         (plausibility_checks md details).portions_ok) := rfl
    rw [this, htiming]
    simp
  simp [evaluate_quality, hok]

/-- C9 witness: the scenario at concrete inputs. -/
theorem c9_timing_mismatch_witness :
    (plausibility_checks md9 details9).timing_ok = false ∧
    (evaluate_quality md9 (mkTargets 700 1000) [] [] details9).1 = false :=
  c9_timing_mismatch md9 details9 (mkTargets 700 1000) [] [] (by decide) (by decide)

theorem toLowerCode_ne_caps (c : Nat) : toLowerCode c ≠ 83 ∧ toLowerCode c ≠ 73 := by
  unfold toLowerCode
  split
  · next h =>
    simp only [Bool.and_eq_true, decide_eq_true_eq] at h
    omega
  · split
    · omega
    · split
      · omega
      · split
        · omega
        · next h _ _ _ =>
          simp only [Bool.and_eq_true, decide_eq_true_eq, not_and, not_le,
            Bool.not_eq_true] at h
          omega

theorem runsAux_forall {keep : Nat → Bool} {P : Nat → Prop} :
    ∀ (l acc : Str), (∀ c ∈ l, P c) → (∀ c ∈ acc, P c) →
    ∀ r ∈ runsAux keep l acc, ∀ c ∈ r, P c := by
  intro l
  induction l with
  | nil =>
    intro acc _ hacc r hr c hc
    unfold runsAux at hr
    split at hr
    · simp at hr
    · simp only [List.mem_singleton] at hr
      subst hr
      exact hacc c (List.mem_reverse.mp hc)
  | cons a l ih =>
    intro acc hl hacc r hr c hc
    unfold runsAux at hr
    split at hr
    · exact ih (a :: acc) (fun x hx => hl x (List.mem_cons_of_mem a hx))
        (fun x hx => by
          rcases List.mem_cons.mp hx with h | h
          · subst h; exact hl _ (List.mem_cons_self _ _)
          · exact hacc x h) r hr c hc
    · split at hr
      · exact ih [] (fun x hx => hl x (List.mem_cons_of_mem a hx))
          (fun x hx => by simp at hx) r hr c hc
      · rcases List.mem_cons.mp hr with h | h
        · subst h
          exact hacc c (List.mem_reverse.mp hc)
        · exact ih [] (fun x hx => hl x (List.mem_cons_of_mem a hx))
            (fun x hx => by simp at hx) r h c hc

theorem formal_words_start : ∀ r ∈ FORMAL_ADDRESS_WORDS,
    r.head? = some 83 ∨ r.head? = some 73 := by decide

/-! Equations for `runsAux` and splitting of runs at non-word boundaries. -/

theorem runsAux_nil_nil (keep : Nat → Bool) : runsAux keep [] [] = [] := rfl

theorem runsAux_cons_keep (keep : Nat → Bool) (c : Nat) (rest acc : Str)
    (h : keep c = true) :
    runsAux keep (c :: rest) acc = runsAux keep rest (c :: acc) := by
  simp only [runsAux]
  rw [if_pos h]

theorem runsAux_cons_break_nil (keep : Nat → Bool) (c : Nat) (rest : Str)
    (h : keep c = false) :
    runsAux keep (c :: rest) [] = runsAux keep rest [] := by
  simp only [runsAux]
  rw [if_neg (by simp [h])]
  simp

theorem runsAux_cons_break (keep : Nat → Bool) (c : Nat) (rest : Str)
    (z : Nat) (zs : Str) (h : keep c = false) :
    runsAux keep (c :: rest) (z :: zs) =
      (z :: zs).reverse :: runsAux keep rest [] := by
  simp only [runsAux]
  rw [if_neg (by simp [h]), if_neg (by simp)]

/-- Runs split at a trailing non-kept character of the left part. -/
theorem runs_append_of_break (keep : Nat → Bool) :
    ∀ a : Str, a ≠ [] → (∀ c, a.getLast? = some c → keep c = false) →
      ∀ (b acc : Str),
        runsAux keep (a ++ b) acc = runsAux keep a acc ++ runsAux keep b [] := by
  intro a
  induction a with
  | nil => intro h; exact absurd rfl h
  | cons x a' ih =>
    intro _ hlast b acc
    cases a' with
    | nil =>
      have hx : keep x = false := hlast x (by simp)
      simp only [List.cons_append, List.nil_append]
      cases acc with
      | nil =>
        rw [runsAux_cons_break_nil _ _ _ hx, runsAux_cons_break_nil _ _ _ hx,
          runsAux_nil_nil, List.nil_append]
      | cons z zs =>
        rw [runsAux_cons_break _ _ _ _ _ hx, runsAux_cons_break _ _ _ _ _ hx,
          runsAux_nil_nil, List.cons_append, List.nil_append]
    | cons y a'' =>
      have hlast' : ∀ c, (y :: a'').getLast? = some c → keep c = false := by
        intro c hc
        apply hlast
        rw [List.getLast?_cons_cons]
        exact hc
      have hne : (y :: a'') ≠ [] := by simp
      simp only [List.cons_append]
      by_cases hx : keep x = true
      · rw [runsAux_cons_keep _ _ _ _ hx, runsAux_cons_keep _ _ _ _ hx]
        exact ih hne hlast' b (x :: acc)
      · have hx' : keep x = false := by
          revert hx
          cases keep x <;> simp
        cases acc with
        | nil =>
          rw [runsAux_cons_break_nil _ _ _ hx', runsAux_cons_break_nil _ _ _ hx']
          exact ih hne hlast' b []
        | cons z zs =>
          rw [runsAux_cons_break _ _ _ _ _ hx', runsAux_cons_break _ _ _ _ _ hx',
            List.cons_append]
          exact congrArg _ (ih hne hlast' b [])

/-- A maximal all-kept block followed by a non-kept character (or the end)
forms one run. -/
theorem runsAux_word_entry (keep : Nat → Bool) :
    ∀ (w post acc : Str), (∀ c ∈ w, keep c = true) →
      (∀ c, post.head? = some c → keep c = false) →
      acc.reverse ++ w ≠ [] →
      runsAux keep (w ++ post) acc = (acc.reverse ++ w) :: runsAux keep post [] := by
  intro w
  induction w with
  | nil =>
    intro post acc _ hpost hne
    simp only [List.nil_append, List.append_nil] at hne ⊢
    cases acc with
    | nil => simp at hne
    | cons z zs =>
      cases post with
      | nil =>
        show runsAux keep [] (z :: zs) = (z :: zs).reverse :: runsAux keep [] []
        simp [runsAux]
      | cons p ps =>
        have hp : keep p = false := hpost p rfl
        rw [runsAux_cons_break _ _ _ _ _ hp, runsAux_cons_break_nil _ _ _ hp]
  | cons c w' ih =>
    intro post acc hw hpost _
    have hc : keep c = true := hw c (List.mem_cons_self c w')
    simp only [List.cons_append]
    rw [runsAux_cons_keep _ _ _ _ hc]
    rw [ih post (c :: acc) (fun z hz => hw z (List.mem_cons_of_mem c hz)) hpost
      (by simp)]
    rw [List.reverse_cons, List.append_assoc, List.singleton_append]

theorem formal_words_wordlike : ∀ w ∈ FORMAL_ADDRESS_WORDS,
    w ≠ [] ∧ ∀ c ∈ w, isWordCode c = true := by decide

/-- C10: formal-address counting is case-sensitive.  (a) On every text in
which each whole word that is case-insensitively one of the formal pronouns
is actually written in lowercase — ordinary mixed-case German prose with
`sie`/`ihnen`/`ihr...` — the count is 0, so the `max_formal_address = 0`
threshold passes.  (b) Inserting any capitalised formal pronoun of the list
as a whole word anywhere — also sentence-initially, with an empty prefix —
raises the count by exactly one. -/
theorem c10_formal_address_case_sensitive :
    (∀ t : Str,
      (∀ r ∈ wordRuns t, pyLower r ∈ FORMAL_ADDRESS_WORDS.map pyLower →
        r = pyLower r) →
      count_formal_address t = 0) ∧
    (∀ pre post w : Str, w ∈ FORMAL_ADDRESS_WORDS →
      (∀ c, pre.getLast? = some c → isWordCode c = false) →
      (∀ c, post.head? = some c → isWordCode c = false) →
      count_formal_address (pre ++ w ++ post) =
        count_formal_address (pre ++ post) + 1) := by
  constructor
  · intro t hlow
    unfold count_formal_address countWholeWords
    rw [List.countP_eq_zero]
    intro r hr
    simp only [decide_eq_true_eq]
    intro hmem
    have hr' : r = pyLower r := hlow r hr (List.mem_map_of_mem pyLower hmem)
    rcases formal_words_start r hmem with h | h <;>
    · rcases r with _ | ⟨c0, r0⟩
      · simp at h
      · simp only [List.head?_cons, Option.some.injEq] at h
        have hc : c0 = toLowerCode c0 := by
          have h2 := congrArg List.head? hr'
          simpa [pyLower] using h2
        have h3 : c0 ≠ 83 ∧ c0 ≠ 73 := by
          rw [hc]
          exact toLowerCode_ne_caps c0
        subst h
        omega
  · intro pre post w hw hpre hpost
    obtain ⟨hne, hch⟩ := formal_words_wordlike w hw
    have hwm : (decide (w ∈ FORMAL_ADDRESS_WORDS)) = true := by simp [hw]
    have h2 : runsAux isWordCode (w ++ post) [] = w :: runsAux isWordCode post [] := by
      have h := runsAux_word_entry isWordCode w post [] hch hpost (by simp [hne])
      simpa using h
    by_cases hpre0 : pre = []
    · subst hpre0
      unfold count_formal_address countWholeWords wordRuns runs
      simp only [List.nil_append]
      rw [h2, List.countP_cons]
      simp [hwm]
    · have h1 : runsAux isWordCode (pre ++ (w ++ post)) [] =
          runsAux isWordCode pre [] ++ runsAux isWordCode (w ++ post) [] :=
        runs_append_of_break isWordCode pre hpre0 hpre (w ++ post) []
      have h3 : runsAux isWordCode (pre ++ post) [] =
          runsAux isWordCode pre [] ++ runsAux isWordCode post [] :=
        runs_append_of_break isWordCode pre hpre0 hpre post []
      unfold count_formal_address countWholeWords wordRuns runs
      rw [List.append_assoc, h1, h2, h3]
      rw [List.countP_append, List.countP_cons, List.countP_append]
      simp only [hwm, if_true]
      omega

/-- C10 witness: mixed-case German text whose formal pronouns are all
lowercase counts 0; inserting a capitalised `Sie` mid-sentence, or an
`Ihnen` sentence-initially, raises the count by one. -/
theorem c10_formal_address_witness :
    count_formal_address
      (codes "Heute kochen sie mit ihrem Topf, denn ihnen schmeckt es") = 0 ∧
    count_formal_address
      (codes "Heute kochen " ++ codes "Sie" ++ codes " mit uns") =
      count_formal_address (codes "Heute kochen " ++ codes " mit uns") + 1 ∧
    count_formal_address (codes "" ++ codes "Ihnen" ++ codes " schmeckt es") =
      count_formal_address (codes "" ++ codes " schmeckt es") + 1 :=
  ⟨c10_formal_address_case_sensitive.1 _ (by decide),
   c10_formal_address_case_sensitive.2 _ _ _ (by decide) (by decide) (by decide),
   c10_formal_address_case_sensitive.2 _ _ _ (by decide) (by decide) (by decide)⟩

theorem andThen_some {r : Option Str} {f : Str → Option Str} {v : Str}
    (h : andThen r f = some v) : ∃ s, r = some s ∧ f s = some v := by
  cases r with
  | none => simp [andThen] at h
  | some s => exact ⟨s, rfl, by simpa [andThen] using h⟩

theorem prefixAt_append {p : Str} : ∀ {s : Str}, prefixAt p s = true →
    s = p ++ s.drop p.length := by
  induction p with
  | nil => intro s _; simp
  | cons a as ih =>
    intro s h
    cases s with
    | nil => simp [prefixAt] at h
    | cons b bs =>
      simp only [prefixAt, Bool.and_eq_true, decide_eq_true_eq] at h
      rcases h with ⟨hab, hrest⟩
      subst hab
      simpa using ih hrest

theorem matchLit_some {p s r : Str} (h : matchLit p s = some r) : s = p ++ r := by
  unfold matchLit at h
  split at h
  · next hp =>
    rcases Option.some.inj h with hr
    rw [← hr]
    exact prefixAt_append hp
  · simp at h

theorem lineH2Einleitung_of_header {l : Str}
    (h : headerLineMatch (codes "Einleitung") l = true) : lineH2Einleitung l = true := by
  unfold headerLineMatch at h
  unfold lineH2Einleitung
  split at h
  · next r heq => rw [heq]; rfl
  · exact absurd h (by simp)

theorem lineH2BgTipps_of_header {l : Str}
    (h : headerLineMatch (codes "Hintergrund & Tipps") l = true) :
    lineH2BgTipps l = true := by
  unfold headerLineMatch at h
  split at h
  · next r heq =>
    rcases andThen_some heq with ⟨s1, h1, h2⟩
    rcases andThen_some h2 with ⟨s2, h3, h4⟩
    have hs2 := matchLit_some h4
    subst hs2
    have e1 : matchLit (codes "Hintergrund") (codes "Hintergrund & Tipps" ++ r) =
      some (codes " & Tipps" ++ r) := rfl
    have e2 : matchWsStar (codes " & Tipps" ++ r) = codes "& Tipps" ++ r := rfl
    have e3 : matchLit (codes "&") (codes "& Tipps" ++ r) =
      some (codes " Tipps" ++ r) := rfl
    have e4 : matchWsStar (codes " Tipps" ++ r) = codes "Tipps" ++ r := rfl
    have e5 : matchLit (codes "Tipps") (codes "Tipps" ++ r) = some r := rfl
    simp only [lineH2BgTipps, andThen, h1, h3, e1, e2, e3, e4, e5, Option.isSome]
  · exact absurd h (by simp)

theorem extractSectionLines_none {hdr : Str} :
    ∀ lines : List Str, (∀ l ∈ lines, headerLineMatch hdr l = false) →
    extractSectionLines hdr lines = none := by
  intro lines
  induction lines with
  | nil => intro _; rfl
  | cons l rest ih =>
    intro h
    unfold extractSectionLines
    rw [h l (List.mem_cons_self _ _)]
    simpa using ih (fun x hx => h x (List.mem_cons_of_mem l hx))

/-- C8: absence of an expected section or metadata field never raises — the
evaluator (a total function in this embedding) reports it as a failed
presence check, and the extraction helpers resolve to an empty/None result:
a false section-presence check forces the section extraction to the empty
string, an empty time/portions block forces the portion extraction to None,
and a missing metadata field forces its length check to false. -/
theorem c8_absence_reported_as_false (md pk dest details : Str) (tg : Targets) :
    ((evaluate_quality md tg pk dest details).2.structure_checks.h2_einleitung = false →
      extract_section md (codes "Einleitung") = []) ∧
    ((evaluate_quality md tg pk dest details).2.structure_checks.h2_bg_tipps = false →
      extract_section md (codes "Hintergrund & Tipps") = []) ∧
    (extract_section md (codes "Zeiten & Portionen") = [] →
      extract_portions md = none) ∧
    (scanQuotedValue (codes "seo_title:") md = none →
      (evaluate_quality md tg pk dest details).2.seo_meta.title_len = 0 ∧
      (evaluate_quality md tg pk dest details).2.seo_meta.title_ok = false) ∧
    (scanQuotedValue (codes "meta_description:") md = none →
      (evaluate_quality md tg pk dest details).2.seo_meta.meta_ok = false) := by
  refine ⟨?_, ?_, ?_, ?_, ?_⟩
  · intro h
    have hall : ∀ l ∈ splitOnCode 10 md, headerLineMatch (codes "Einleitung") l = false := by
      have h2 : (splitOnCode 10 md).any lineH2Einleitung = false := h
      rw [List.any_eq_false] at h2
      intro l hl
      by_contra hc
      exact h2 l hl (lineH2Einleitung_of_header (by
        cases hh : headerLineMatch (codes "Einleitung") l
        · exact absurd hh hc
        · rfl))
    unfold extract_section
    rw [extractSectionLines_none _ hall]
    rfl
  · intro h
    have hall : ∀ l ∈ splitOnCode 10 md,
        headerLineMatch (codes "Hintergrund & Tipps") l = false := by
      have h2 : (splitOnCode 10 md).any lineH2BgTipps = false := h
      rw [List.any_eq_false] at h2
      intro l hl
      by_contra hc
      exact h2 l hl (lineH2BgTipps_of_header (by
        cases hh : headerLineMatch (codes "Hintergrund & Tipps") l
        · exact absurd hh hc
        · rfl))
    unfold extract_section
    rw [extractSectionLines_none _ hall]
    rfl
  · intro h
    unfold extract_portions
    rw [h]
    rfl
  · intro h
    constructor
    · show ((scanQuotedValue (codes "seo_title:") md).getD []).length = 0
      rw [h]
      rfl
    · show (decide _ && decide _) = false
      rw [show ((scanQuotedValue (codes "seo_title:") md).getD []) = [] from by rw [h]; rfl]
      rfl
  · intro h
    show (decide _ && decide _) = false
    rw [show ((scanQuotedValue (codes "meta_description:") md).getD []) = [] from by
      rw [h]; rfl]
    rfl

/-- C8 witness: a document with no sections and no metadata. -/
theorem c8_absence_witness :
    extract_section md8 (codes "Einleitung") = [] ∧
    extract_portions md8 = none ∧
    (evaluate_quality md8 (mkTargets 700 1000) [] [] []).2.seo_meta.title_ok = false :=
  ⟨(c8_absence_reported_as_false md8 [] [] [] (mkTargets 700 1000)).1 (by decide),
   (c8_absence_reported_as_false md8 [] [] [] (mkTargets 700 1000)).2.2.1 (by decide),
   ((c8_absence_reported_as_false md8 [] [] [] (mkTargets 700 1000)).2.2.2.1 (by decide)).2⟩

theorem repairLoop_calls_le (oracle : Nat → Str) (tg : Targets) (pk dest details : Str) :
    ∀ (budget : Nat) (idx : Nat) (st : LoopState),
    (repairLoop oracle tg pk dest details idx budget st).calls ≤ budget := by
  intro budget
  induction budget with
  | zero => intro idx st; simp [repairLoop]
  | succ b ih =>
    intro idx st
    unfold repairLoop
    split
    · simp
    · simpa using Nat.add_le_add_right (ih (idx + 1) _) 1

theorem repairLoop_of_ok (oracle : Nat → Str) (tg : Targets) (pk dest details : Str)
    (idx budget : Nat) (st : LoopState) (h : st.ok = true) :
    repairLoop oracle tg pk dest details idx budget st =
      { doc := st.doc, ok := st.ok, metrics := st.metrics, calls := 0, remedies := [] } := by
  cases budget with
  | zero => rfl
  | succ b => simp [repairLoop, h]

theorem forceExpand_calls_le (oracle : Nat → Str) (tg : Targets) (pk dest details : Str)
    (idx min_words : Nat) (st : LoopState) :
    (forceExpand oracle tg pk dest details idx min_words st).2 ≤ 2 := by
  unfold forceExpand
  split
  · dsimp only
    split <;> simp
  · simp

theorem forceExpand_of_ok (oracle : Nat → Str) (tg : Targets) (pk dest details : Str)
    (idx min_words : Nat) (st : LoopState) (h : st.ok = true) :
    forceExpand oracle tg pk dest details idx min_words st = (st, 0) := by
  simp [forceExpand, h]

theorem forceExpand_pos_reason (oracle : Nat → Str) (tg : Targets) (pk dest details : Str)
    (idx min_words : Nat) (st : LoopState)
    (h : (forceExpand oracle tg pk dest details idx min_words st).2 ≠ 0) :
    st.ok = false ∧ st.metrics.style_metrics.words < min_words := by
  by_cases hok : st.ok = true
  · rw [forceExpand_of_ok oracle tg pk dest details idx min_words st hok] at h
    simp at h
  · refine ⟨Bool.not_eq_true _ ▸ hok, ?_⟩
    by_cases hw : st.metrics.style_metrics.words < min_words
    · exact hw
    · exfalso
      apply h
      unfold forceExpand
      rw [if_neg]
      simp only [Bool.and_eq_true, Bool.not_eq_true', decide_eq_true_eq, not_and]
      intro _
      exact hw

/-- C4: the repair loop of the Orchestrator performs at most 6 service calls
and the forced-expansion fallback at most 2 more; the total number of
generation-service calls in one run is exactly 3 initial passes plus the two
loop counts, hence at most 11; both loops stop at the first true verdict (a
passing state adds zero calls, and a run whose style edit already passes
makes exactly 3 calls); the fallback only runs on a failing, too-short
document. -/
theorem c4_bounded_retries (oracle : Nat → Str)
    (topic details primary_kw destination : Str) (minw maxw : Nat) :
    let tg := mkTargets minw maxw
    let pk := pkOf topic primary_kw
    let dest := destOf topic pk destination
    let r := generate_article oracle topic details primary_kw destination minw maxw
    r.repairCalls ≤ 6 ∧
    r.fallbackCalls ≤ 2 ∧
    r.totalCalls = 3 + r.repairCalls + r.fallbackCalls ∧
    r.totalCalls ≤ 11 ∧
    ((evaluate_quality (oracle 2) tg pk dest details).1 = true → r.totalCalls = 3) ∧
    (∀ (idx budget : Nat) (st : LoopState), st.ok = true →
      (repairLoop oracle tg pk dest details idx budget st).calls = 0) ∧
    (∀ (idx : Nat) (st : LoopState), st.ok = true →
      (forceExpand oracle tg pk dest details idx minw st).2 = 0) ∧
    (∀ (idx : Nat) (st : LoopState),
      (forceExpand oracle tg pk dest details idx minw st).2 ≠ 0 →
      st.ok = false ∧ st.metrics.style_metrics.words < minw) := by
  intro tg pk dest r
  have hr : r.repairCalls ≤ 6 := repairLoop_calls_le oracle tg pk dest details 6 3 _
  have hf : r.fallbackCalls ≤ 2 := forceExpand_calls_le oracle tg pk dest details _ minw _
  have htot : r.totalCalls = 3 + r.repairCalls + r.fallbackCalls := rfl
  refine ⟨hr, hf, htot, by omega, ?_, ?_, ?_, ?_⟩
  · intro h
    show 3 + (repairLoop oracle tg pk dest details 3 6
        { doc := oracle 2,
          ok := (evaluate_quality (oracle 2) tg pk dest details).1,
          metrics := (evaluate_quality (oracle 2) tg pk dest details).2 }).calls +
      (forceExpand oracle tg pk dest details _ minw _).2 = 3
    rw [repairLoop_of_ok oracle tg pk dest details 3 6 _ h]
    dsimp only
    rw [forceExpand_of_ok oracle tg pk dest details _ minw _ h]
    rfl
  · intro idx budget st h
    rw [repairLoop_of_ok oracle tg pk dest details idx budget st h]
  · intro idx st h
    rw [forceExpand_of_ok oracle tg pk dest details idx minw st h]
  · intro idx st h
    exact forceExpand_pos_reason oracle tg pk dest details idx minw st h

/-- C4 witness: with a service that always returns the empty text every
verdict fails, so the run uses the full budget of 3 + 6 + 2 = 11 calls. -/
theorem c4_bounded_retries_witness :
    (generate_article (fun _ => []) [] [] [] [] 700 1000).totalCalls ≤ 11 ∧
    (generate_article (fun _ => []) [] [] [] [] 700 1000).repairCalls = 6 ∧
    (generate_article (fun _ => []) [] [] [] [] 700 1000).fallbackCalls = 2 ∧
    (generate_article (fun _ => []) [] [] [] [] 700 1000).totalCalls = 11 :=
  ⟨(c4_bounded_retries (fun _ => []) [] [] [] [] 700 1000).2.2.2.1,
   by decide!, by decide!, by decide!⟩

theorem plaus_ok_false_of_equipment (md details : Str)
    (h : (plausibility_checks md details).equipment_ok = false) :
    (plausibility_checks md details).ok = false := by
  have e : (plausibility_checks md details).ok =
      (((((plausibility_checks md details).equipment_ok &&
       (plausibility_checks md details).oven_ok) &&
        (plausibility_checks md details).abwasch_ok) &&
         (plausibility_checks md details).timing_ok) &&
          (plausibility_checks md details).portions_ok) := rfl
  rw [e, h]
  simp

theorem eval_false_of_plaus (text : Str) (tg : Targets) (pk dest details : Str)
    (h : (plausibility_checks text details).ok = false) :
    (evaluate_quality text tg pk dest details).1 = false := by
  show (_ && (plausibility_checks text details).ok) = false
  rw [h]
  simp

set_option maxHeartbeats 1000000 in
/-- C7 counterexample: a document satisfying every condition the claim lists
— word count in [700,1000], at least 6 first-person and 2 second-person
markers, no formal address, no banned phrase, every required heading/section
present, 6-10 numbered steps, metadata lengths in range and the coherence
term in both opening and background — on which `evaluate` nevertheless
returns a false verdict, because the domain-plausibility equipment check
(which the claim does not list) fails. -/
theorem c7_counterexample :
    (700 ≤ word_count docC ∧ word_count docC ≤ 1000) ∧
    6 ≤ count_first_person docC ∧
    2 ≤ count_second_person docC ∧
    count_formal_address docC = 0 ∧
    has_banned_phrases docC = false ∧
    ((check_structure docC pkW).yaml_frontmatter = true ∧
     (check_structure docC pkW).h1_present = true ∧
     (check_structure docC pkW).h2_einleitung = true ∧
     (check_structure docC pkW).h2_bg_tipps = true ∧
     (check_structure docC pkW).h2_rezept = true ∧
     (check_structure docC pkW).h3_zutaten = true ∧
     (check_structure docC pkW).h3_schritte = true ∧
     (check_structure docC pkW).h3_zeiten = true) ∧
    (6 ≤ (check_structure docC pkW).steps_count ∧
     (check_structure docC pkW).steps_count ≤ 10) ∧
    (10 ≤ (seo_lengths docC).title_len ∧ (seo_lengths docC).title_len ≤ 60) ∧
    (50 ≤ (seo_lengths docC).meta_len ∧ (seo_lengths docC).meta_len ≤ 155) ∧
    (coherence_checks docC destW).intro_has_dest = true ∧
    (coherence_checks docC destW).bg_has_dest = true ∧
    (evaluate_quality docC (mkTargets 700 1000) pkW destW detailsW).1 = false := by
  refine ⟨⟨by decide!, by decide!⟩, by decide!, by decide!, by decide!, by decide!,
    ⟨by decide!, by decide!, by decide!, by decide!, by decide!, by decide!,
     by decide!, by decide!⟩,
    ⟨by decide!, by decide!⟩, ⟨by decide!, by decide!⟩, ⟨by decide!, by decide!⟩,
    by decide!, by decide!, ?_⟩
  exact eval_false_of_plaus docC (mkTargets 700 1000) pkW destW detailsW
    (plaus_ok_false_of_equipment docC detailsW (by decide!))

/-- C7 amended: a document satisfying the claim's listed conditions passes on
the first try once the remaining checks the Evaluator also enforces are added
to the premise: lexical diversity at least 0.45, sentence-length deviation at
least 7, at least 3 numeric tokens, the opening-window first-person check,
keyword placement (title and first 100 body tokens, part of the combined
structural/metadata check), the background bridge sentence (part of the
coherence check), and the domain-plausibility check. -/
theorem c7_passing_first_try (d pk dest details : Str)
    (hb : has_banned_phrases d = false)
    (httr : ttr_check d 9 20 = true)
    (hvar : var_check d 7 = true)
    (hfp : 6 ≤ count_first_person d)
    (hnum : 3 ≤ count_numbers d)
    (hw1 : 700 ≤ word_count d) (hw2 : word_count d ≤ 1000)
    (hsp : 2 ≤ count_second_person d)
    (hfa : count_formal_address d = 0)
    (hich : ich_in_first100 d = true)
    (hstr : structureAll (check_structure d pk) (seo_lengths d) = true)
    (hcoh : (coherence_checks d dest).ok = true)
    (hpl : (plausibility_checks d details).ok = true) :
    (evaluate_quality d (mkTargets 700 1000) pk dest details).1 = true := by
  dsimp only [evaluate_quality, styleMetrics, mkTargets]
  simp [hb, httr, hvar, hfp, hnum, hw1, hw2, hsp, hfa, hich, hstr, hcoh, hpl]

set_option maxHeartbeats 1000000 in
/-- C7 witness: the amended statement at a concrete passing document. -/
theorem c7_passing_first_try_witness :
    (evaluate_quality docW (mkTargets 700 1000) pkW destW detailsW).1 = true :=
  c7_passing_first_try docW pkW destW detailsW (by decide!) (by decide!) (by decide!)
    (by decide!) (by decide!) (by decide!) (by decide!) (by decide!) (by decide!)
    (by decide!) (by decide!) (by decide!) (by decide!)

/-- C1: generate_article in humanizer_pipeline_lang.py has no return
statement — after the language check, the three passes and the bounded
repair loop its body simply ends, so Python hands the caller None instead of
the promised dict with the final document, metrics and verdict.  In the
embedding the function therefore yields `Except.ok none` for every oracle
and every input on the supported `de` path. -/
theorem c1_lang_run_returns_none (oracle : Nat → Str) (topic details : Str)
    (minw maxw : Nat) :
    Lang.generate_article oracle topic details (codes "de") minw maxw = Except.ok none := rfl

/-! ### The Structural Normalizer is idempotent (C3) -/

/-! Equation lemmas for the pattern-matching definitions. -/

theorem nz_dlA_blank {x : Str} (seen : List Str) (rest : List Str)
    (h : isBlankLine x = true) :
    dedupLinesAux seen (x :: rest) =
      (x :: (dedupLinesAux seen rest).1, (dedupLinesAux seen rest).2) := by
  simp only [dedupLinesAux]
  rw [if_pos h]

theorem nz_dlA_mem {x : Str} (seen : List Str) (rest : List Str)
    (h1 : isBlankLine x = false) (h2 : normKey x ∈ seen) :
    dedupLinesAux seen (x :: rest) = dedupLinesAux seen rest := by
  simp only [dedupLinesAux]
  rw [if_neg (by simp [h1]), if_pos h2]

theorem nz_dlA_fresh {x : Str} (seen : List Str) (rest : List Str)
    (h1 : isBlankLine x = false) (h2 : normKey x ∉ seen) :
    dedupLinesAux seen (x :: rest) =
      (x :: (dedupLinesAux (normKey x :: seen) rest).1,
        (dedupLinesAux (normKey x :: seen) rest).2) := by
  simp only [dedupLinesAux]
  rw [if_neg (by simp [h1]), if_neg h2]

theorem nz_dsA_cons (seen : List Str) (s : NormSection) (rest : List NormSection) :
    dedupSectionsAux seen (s :: rest) =
      { s with paras := (dedupLinesAux seen s.paras).1 } ::
        dedupSectionsAux (dedupLinesAux seen s.paras).2 rest := rfl

theorem nz_cbA_nil (p : List Str) : collapseBlanksAux p [] = emitPending p := rfl

theorem nz_cbA_blank {x : Str} (p rest : List Str) (h : isBlankLine x = true) :
    collapseBlanksAux p (x :: rest) = collapseBlanksAux (p ++ [x]) rest := by
  simp only [collapseBlanksAux]
  rw [if_pos h]

theorem nz_cbA_nonblank {x : Str} (p rest : List Str) (h : isBlankLine x = false) :
    collapseBlanksAux p (x :: rest) =
      emitPending p ++ x :: collapseBlanksAux [] rest := by
  simp only [collapseBlanksAux]
  rw [if_neg (by simp [h])]

theorem nz_rkA_nil (c : Nat) : runsOkAux c [] = decide (c ≤ 2) := rfl

theorem nz_rkA_blank {x : Str} (c : Nat) (rest : List Str) (h : isBlankLine x = true) :
    runsOkAux c (x :: rest) = runsOkAux (c + 1) rest := by
  simp only [runsOkAux]
  rw [if_pos h]

theorem nz_rkA_nonblank {x : Str} (c : Nat) (rest : List Str) (h : isBlankLine x = false) :
    runsOkAux c (x :: rest) = (decide (c ≤ 2) && runsOkAux 0 rest) := by
  simp only [runsOkAux]
  rw [if_neg (by simp [h])]

theorem nz_fl_blank {x : Str} (seen rest : List Str) (h : isBlankLine x = true) :
    FreshLines seen (x :: rest) = FreshLines seen rest := by
  simp only [FreshLines]
  rw [if_pos h]

theorem nz_fl_cons {x : Str} (seen rest : List Str) (h : isBlankLine x = false) :
    FreshLines seen (x :: rest) =
      (normKey x ∉ seen ∧ FreshLines (normKey x :: seen) rest) := by
  simp only [FreshLines]
  rw [if_neg (by simp [h])]

/-! Generic map identity. -/

theorem nz_map_id {α : Type} (f : α → α) (l : List α) (h : ∀ a ∈ l, f a = a) :
    l.map f = l := by
  induction l with
  | nil => rfl
  | cons a l ih =>
    simp only [List.map_cons]
    rw [h a (List.mem_cons_self a l), ih (fun b hb => h b (List.mem_cons_of_mem a hb))]

/-! Key freshness and `dedupByKey`. -/

theorem nz_keysFresh_dedupAux (l : List Str) :
    ∀ seen, KeysFresh seen (dedupByKeyAux seen l) := by
  induction l with
  | nil => intro seen; trivial
  | cons x rest ih =>
    intro seen
    by_cases h : normKey x ∈ seen
    · simp only [dedupByKeyAux]
      rw [if_pos h]
      exact ih seen
    · simp only [dedupByKeyAux]
      rw [if_neg h]
      exact ⟨h, ih (normKey x :: seen)⟩

theorem nz_dedupAux_of_fresh (l : List Str) :
    ∀ seen, KeysFresh seen l → dedupByKeyAux seen l = l := by
  induction l with
  | nil => intro seen _; rfl
  | cons x rest ih =>
    intro seen h
    obtain ⟨h1, h2⟩ := h
    simp only [dedupByKeyAux]
    rw [if_neg h1, ih _ h2]

theorem nz_keysFresh_take (l : List Str) :
    ∀ n seen, KeysFresh seen l → KeysFresh seen (l.take n) := by
  induction l with
  | nil => intro n seen _; rw [List.take_nil]; trivial
  | cons x rest ih =>
    intro n seen h
    cases n with
    | zero => rw [List.take_zero]; trivial
    | succ n =>
      obtain ⟨h1, h2⟩ := h
      rw [List.take_succ_cons]
      exact ⟨h1, ih n _ h2⟩

/-! `numberFrom` and `renumberCap`. -/

theorem nz_numberFrom_snd (l : List Str) : ∀ n, (numberFrom n l).map Prod.snd = l := by
  induction l with
  | nil => intro n; rfl
  | cons x rest ih =>
    intro n
    simp only [numberFrom, List.map_cons, ih (n + 1)]

theorem nz_renumber_stable (cap : Nat) (l : List (Nat × Str)) :
    renumberCap cap (renumberCap cap l) = renumberCap cap l := by
  simp only [renumberCap, nz_numberFrom_snd, List.take_take, Nat.min_self]

/-! `consolidateTips`. -/

theorem nz_consTips_heading (cfg : NormConfig) (s : NormSection) :
    (consolidateTips cfg s).heading = s.heading := by
  unfold consolidateTips
  split <;> rfl

theorem nz_consTips_paras_sub (cfg : NormConfig) (s : NormSection) :
    ∀ l ∈ (consolidateTips cfg s).paras, l ∈ s.paras := by
  intro l hl
  unfold consolidateTips at hl
  split at hl
  · exact (List.mem_filter.mp hl).1
  · exact hl

theorem nz_consTips_id (cfg : NormConfig) (s : NormSection)
    (h : s.heading = cfg.bgName →
      (∀ l ∈ s.paras, cfg.tipLike l = false) ∧
        dedupByKey s.bullets = s.bullets ∧ s.bullets.take cfg.bulletCap = s.bullets) :
    consolidateTips cfg s = s := by
  unfold consolidateTips
  split
  · next hbg =>
    obtain ⟨hp, hd, hc⟩ := h hbg
    have hf : s.paras.filter cfg.tipLike = [] :=
      List.filter_eq_nil_iff.mpr (fun a ha => by simp [hp a ha])
    have hf2 : s.paras.filter (fun l => !cfg.tipLike l) = s.paras :=
      List.filter_eq_self.mpr (fun a ha => by simp [hp a ha])
    rw [hf, List.append_nil, hf2]
    unfold capDedup
    rw [hd, hc]
  · rfl

/-! `collapseOptAux`. -/

theorem nz_collapseOpt_mem (opt : Str) (cap : Nat) (l : List NormSection) :
    ∀ b s', s' ∈ collapseOptAux opt cap b l →
      ∃ s ∈ l, s' = s ∨ s' = { s with bullets := s.bullets.take cap } := by
  induction l with
  | nil => intro b s' h; simp [collapseOptAux] at h
  | cons s rest ih =>
    intro b s' h
    simp only [collapseOptAux] at h
    split at h
    · split at h
      · obtain ⟨t, ht, h'⟩ := ih true s' h
        exact ⟨t, List.mem_cons_of_mem s ht, h'⟩
      · rcases List.mem_cons.mp h with h' | h'
        · exact ⟨s, List.mem_cons_self s rest, Or.inr h'⟩
        · obtain ⟨t, ht, h''⟩ := ih true s' h'
          exact ⟨t, List.mem_cons_of_mem s ht, h''⟩
    · rcases List.mem_cons.mp h with h' | h'
      · exact ⟨s, List.mem_cons_self s rest, Or.inl h'⟩
      · obtain ⟨t, ht, h''⟩ := ih b s' h'
        exact ⟨t, List.mem_cons_of_mem s ht, h''⟩

theorem nz_collapseOpt_count_zero (opt : Str) (cap : Nat) (l : List NormSection) :
    List.countP (fun s => decide (s.heading = opt)) (collapseOptAux opt cap true l) = 0 := by
  induction l with
  | nil => rfl
  | cons s rest ih =>
    simp only [collapseOptAux]
    split
    · next hh => rw [if_pos trivial]; exact ih
    · next hh => rw [List.countP_cons]; simp [hh, ih]

theorem nz_collapseOpt_count_le (opt : Str) (cap : Nat) (l : List NormSection) :
    List.countP (fun s => decide (s.heading = opt)) (collapseOptAux opt cap false l) ≤ 1 := by
  induction l with
  | nil => simp [collapseOptAux]
  | cons s rest ih =>
    simp only [collapseOptAux]
    split
    · next hh =>
      simp [List.countP_cons, nz_collapseOpt_count_zero, hh]
    · next hh =>
      rw [List.countP_cons]
      simp only [hh]
      simpa using ih

theorem nz_collapseOpt_none (opt : Str) (cap : Nat) (l : List NormSection) :
    List.countP (fun s => decide (s.heading = opt)) l = 0 →
      ∀ b, collapseOptAux opt cap b l = l := by
  induction l with
  | nil => intro _ b; rfl
  | cons s rest ih =>
    intro h b
    rw [List.countP_cons] at h
    by_cases hs : s.heading = opt
    · exfalso
      split at h
      · omega
      · next hc => simp [hs] at hc
    · have hr : List.countP (fun s => decide (s.heading = opt)) rest = 0 := by
        split at h
        · next hc => simp [hs] at hc
        · omega
      simp only [collapseOptAux]
      rw [if_neg hs, ih hr b]

theorem nz_collapseOpt_id (opt : Str) (cap : Nat) (l : List NormSection) :
    List.countP (fun s => decide (s.heading = opt)) l ≤ 1 →
      (∀ s ∈ l, s.heading = opt → s.bullets.take cap = s.bullets) →
      collapseOptAux opt cap false l = l := by
  induction l with
  | nil => intro _ _; rfl
  | cons s rest ih =>
    intro h1 h2
    rw [List.countP_cons] at h1
    by_cases hs : s.heading = opt
    · have hz : List.countP (fun s => decide (s.heading = opt)) rest = 0 := by
        split at h1
        · omega
        · next hc => simp [hs] at hc
      simp only [collapseOptAux]
      rw [if_pos hs]
      rw [if_neg Bool.false_ne_true]
      rw [h2 s (List.mem_cons_self s rest) hs]
      rw [nz_collapseOpt_none opt cap rest hz true]
    · have h1' : List.countP (fun s => decide (s.heading = opt)) rest ≤ 1 := by
        split at h1
        · next hc => simp [hs] at hc
        · omega
      simp only [collapseOptAux]
      rw [if_neg hs, ih h1' (fun t ht => h2 t (List.mem_cons_of_mem s ht))]

/-! `dedupLinesAux`: kept lines form a sublist, second passes are inert. -/

theorem nz_dl_sub (l : List Str) : ∀ seen, (dedupLinesAux seen l).1.Sublist l := by
  induction l with
  | nil => intro seen; exact List.Sublist.refl []
  | cons x rest ih =>
    intro seen
    cases hb : isBlankLine x with
    | true =>
      rw [nz_dlA_blank seen rest hb]
      exact List.Sublist.cons₂ x (ih seen)
    | false =>
      by_cases hm : normKey x ∈ seen
      · rw [nz_dlA_mem seen rest hb hm]
        exact List.Sublist.cons x (ih seen)
      · rw [nz_dlA_fresh seen rest hb hm]
        exact List.Sublist.cons₂ x (ih (normKey x :: seen))

theorem nz_dedupLines_pair (l : List Str) :
    ∀ seen, dedupLinesAux seen (dedupLinesAux seen l).1 = dedupLinesAux seen l := by
  induction l with
  | nil => intro seen; rfl
  | cons x rest ih =>
    intro seen
    cases hb : isBlankLine x with
    | true =>
      rw [nz_dlA_blank seen rest hb, nz_dlA_blank seen _ hb, ih seen]
    | false =>
      by_cases hm : normKey x ∈ seen
      · rw [nz_dlA_mem seen rest hb hm]
        exact ih seen
      · rw [nz_dlA_fresh seen rest hb hm, nz_dlA_fresh seen _ hb hm, ih (normKey x :: seen)]

theorem nz_dl_of_fresh (l : List Str) :
    ∀ seen, FreshLines seen l → (dedupLinesAux seen l).1 = l := by
  induction l with
  | nil => intro seen _; rfl
  | cons x rest ih =>
    intro seen h
    cases hb : isBlankLine x with
    | true =>
      rw [nz_fl_blank seen rest hb] at h
      rw [nz_dlA_blank seen rest hb]
      exact congrArg (x :: ·) (ih seen h)
    | false =>
      rw [nz_fl_cons seen rest hb] at h
      rw [nz_dlA_fresh seen rest hb h.1]
      exact congrArg (x :: ·) (ih _ h.2)

theorem nz_fresh_of_dl (l : List Str) :
    ∀ seen, (dedupLinesAux seen l).1 = l → FreshLines seen l := by
  induction l with
  | nil => intro seen _; trivial
  | cons x rest ih =>
    intro seen h
    cases hb : isBlankLine x with
    | true =>
      rw [nz_dlA_blank seen rest hb] at h
      rw [nz_fl_blank seen rest hb]
      exact ih seen (by injection h)
    | false =>
      by_cases hm : normKey x ∈ seen
      · rw [nz_dlA_mem seen rest hb hm] at h
        have hlen := (nz_dl_sub rest seen).length_le
        rw [h] at hlen
        simp at hlen
      · rw [nz_dlA_fresh seen rest hb hm] at h
        rw [nz_fl_cons seen rest hb]
        exact ⟨hm, ih _ (by injection h)⟩

/-! The seen set produced by `dedupLinesAux`. -/

theorem nz_dl_snd_mono (l : List Str) :
    ∀ seen x, x ∈ seen → x ∈ (dedupLinesAux seen l).2 := by
  induction l with
  | nil => intro seen x hx; exact hx
  | cons y rest ih =>
    intro seen x hx
    cases hb : isBlankLine y with
    | true => rw [nz_dlA_blank seen rest hb]; exact ih seen x hx
    | false =>
      by_cases hm : normKey y ∈ seen
      · rw [nz_dlA_mem seen rest hb hm]; exact ih seen x hx
      · rw [nz_dlA_fresh seen rest hb hm]
        exact ih _ x (List.mem_cons_of_mem _ hx)

theorem nz_dl_snd_sub (l : List Str) :
    ∀ seen x, x ∈ (dedupLinesAux seen l).2 →
      x ∈ seen ∨ ∃ u, u ∈ l ∧ isBlankLine u = false ∧ normKey u = x := by
  induction l with
  | nil => intro seen x hx; exact Or.inl hx
  | cons y rest ih =>
    intro seen x hx
    cases hb : isBlankLine y with
    | true =>
      rw [nz_dlA_blank seen rest hb] at hx
      rcases ih seen x hx with h | ⟨u, hu, h1, h2⟩
      · exact Or.inl h
      · exact Or.inr ⟨u, List.mem_cons_of_mem y hu, h1, h2⟩
    | false =>
      by_cases hm : normKey y ∈ seen
      · rw [nz_dlA_mem seen rest hb hm] at hx
        rcases ih seen x hx with h | ⟨u, hu, h1, h2⟩
        · exact Or.inl h
        · exact Or.inr ⟨u, List.mem_cons_of_mem y hu, h1, h2⟩
      · rw [nz_dlA_fresh seen rest hb hm] at hx
        rcases ih _ x hx with h | ⟨u, hu, h1, h2⟩
        · rcases List.mem_cons.mp h with h' | h'
          · exact Or.inr ⟨y, List.mem_cons_self y rest, hb, h'.symm⟩
          · exact Or.inl h'
        · exact Or.inr ⟨u, List.mem_cons_of_mem y hu, h1, h2⟩

theorem nz_dl_snd_mem (l : List Str) :
    ∀ seen u, u ∈ l → isBlankLine u = false → normKey u ∈ (dedupLinesAux seen l).2 := by
  induction l with
  | nil => intro seen u hu _; exact absurd hu (List.not_mem_nil u)
  | cons y rest ih =>
    intro seen u hu hub
    cases hb : isBlankLine y with
    | true =>
      rw [nz_dlA_blank seen rest hb]
      rcases List.mem_cons.mp hu with h | h
      · rw [h] at hub
        rw [hub] at hb
        cases hb
      · exact ih seen u h hub
    | false =>
      by_cases hm : normKey y ∈ seen
      · rw [nz_dlA_mem seen rest hb hm]
        rcases List.mem_cons.mp hu with h | h
        · rw [h]
          exact nz_dl_snd_mono rest seen _ hm
        · exact ih seen u h hub
      · rw [nz_dlA_fresh seen rest hb hm]
        rcases List.mem_cons.mp hu with h | h
        · rw [h]
          exact nz_dl_snd_mono rest _ _ (List.mem_cons_self _ _)
        · exact ih _ u h hub

/-! Freshness of lines is antitone in the seen set and closed under sublists. -/

theorem nz_fl_mono (l : List Str) :
    ∀ seen seen', (∀ x, x ∈ seen' → x ∈ seen) → FreshLines seen l → FreshLines seen' l := by
  induction l with
  | nil => intro _ _ _ _; trivial
  | cons x rest ih =>
    intro seen seen' hsub h
    cases hb : isBlankLine x with
    | true =>
      rw [nz_fl_blank seen rest hb] at h
      rw [nz_fl_blank seen' rest hb]
      exact ih seen seen' hsub h
    | false =>
      rw [nz_fl_cons seen rest hb] at h
      rw [nz_fl_cons seen' rest hb]
      refine ⟨fun hc => h.1 (hsub _ hc), ih _ _ ?_ h.2⟩
      intro z hz
      rcases List.mem_cons.mp hz with h' | h'
      · rw [h']
        exact List.mem_cons_self _ _
      · exact List.mem_cons_of_mem _ (hsub _ h')

theorem nz_fl_sublist {l' l : List Str} (hs : l'.Sublist l) :
    ∀ seen, FreshLines seen l → FreshLines seen l' := by
  induction hs with
  | slnil => intro seen _; trivial
  | cons a hsub ih =>
    intro seen h
    cases hb : isBlankLine a with
    | true =>
      rw [nz_fl_blank seen _ hb] at h
      exact ih seen h
    | false =>
      rw [nz_fl_cons seen _ hb] at h
      exact ih seen (nz_fl_mono _ _ _ (fun x hx => List.mem_cons_of_mem _ hx) h.2)
  | cons₂ a hsub ih =>
    intro seen h
    cases hb : isBlankLine a with
    | true =>
      rw [nz_fl_blank seen _ hb] at h
      rw [nz_fl_blank seen _ hb]
      exact ih seen h
    | false =>
      rw [nz_fl_cons seen _ hb] at h
      rw [nz_fl_cons seen _ hb]
      exact ⟨h.1, ih _ h.2⟩

/-! Section-level freshness. -/

theorem nz_fs_mono (ss : List NormSection) :
    ∀ seen seen', (∀ x, x ∈ seen' → x ∈ seen) →
      FreshSections seen ss → FreshSections seen' ss := by
  induction ss with
  | nil => intro _ _ _ _; trivial
  | cons s rest ih =>
    intro seen seen' hsub h
    obtain ⟨h1, h2⟩ := h
    refine ⟨nz_fl_mono _ _ _ hsub h1, ih _ _ ?_ h2⟩
    intro x hx
    rcases nz_dl_snd_sub _ _ _ hx with hx' | ⟨u, hu, hub, huk⟩
    · exact nz_dl_snd_mono _ _ _ (hsub _ hx')
    · exact huk ▸ nz_dl_snd_mem _ _ _ hu hub

theorem nz_fs_rel (ss' : List NormSection) :
    ∀ ss seen, nzRL ss' ss → FreshSections seen ss → FreshSections seen ss' := by
  induction ss' with
  | nil => intro ss seen _ _; trivial
  | cons s' rest' ih =>
    intro ss seen hr h
    cases ss with
    | nil => exact hr.elim
    | cons s rest =>
      obtain ⟨⟨hh, hb, hn, hp⟩, hrl⟩ := hr
      obtain ⟨h1, h2⟩ := h
      refine ⟨nz_fl_sublist hp seen h1, ?_⟩
      have hsub : ∀ x, x ∈ (dedupLinesAux seen s'.paras).2 →
          x ∈ (dedupLinesAux seen s.paras).2 := by
        intro x hx
        rcases nz_dl_snd_sub _ _ _ hx with hx' | ⟨u, hu, hub, huk⟩
        · exact nz_dl_snd_mono _ _ _ hx'
        · exact huk ▸ nz_dl_snd_mem _ _ _ (hp.subset hu) hub
      exact ih rest _ hrl (nz_fs_mono _ _ _ hsub h2)

theorem nz_dsA_of_fresh (ss : List NormSection) :
    ∀ seen, FreshSections seen ss → dedupSectionsAux seen ss = ss := by
  induction ss with
  | nil => intro seen _; rfl
  | cons s rest ih =>
    intro seen h
    obtain ⟨h1, h2⟩ := h
    rw [nz_dsA_cons, nz_dl_of_fresh _ _ h1, ih _ h2]

theorem nz_dedupSections_pair (ss : List NormSection) :
    ∀ seen, dedupSectionsAux seen (dedupSectionsAux seen ss) = dedupSectionsAux seen ss := by
  induction ss with
  | nil => intro seen; rfl
  | cons s rest ih =>
    intro seen
    rw [nz_dsA_cons seen s rest, nz_dsA_cons]
    dsimp only
    rw [nz_dedupLines_pair s.paras seen, ih _]

theorem nz_fs_dsA (ss : List NormSection) :
    ∀ seen, FreshSections seen (dedupSectionsAux seen ss) := by
  induction ss with
  | nil => intro seen; trivial
  | cons s rest ih =>
    intro seen
    rw [nz_dsA_cons]
    refine ⟨?_, ?_⟩
    · exact nz_fresh_of_dl _ _ (congrArg Prod.fst (nz_dedupLines_pair s.paras seen))
    · have he : (dedupLinesAux seen ({ s with
          paras := (dedupLinesAux seen s.paras).1 } : NormSection).paras).2 =
          (dedupLinesAux seen s.paras).2 :=
        congrArg Prod.snd (nz_dedupLines_pair s.paras seen)
      rw [he]
      exact ih _

/-! Pointwise relations produced by the two section-list rewrites. -/

theorem nz_rl_dsA (ss : List NormSection) :
    ∀ seen, nzRL (dedupSectionsAux seen ss) ss := by
  induction ss with
  | nil => intro seen; trivial
  | cons s rest ih =>
    intro seen
    rw [nz_dsA_cons]
    exact ⟨⟨rfl, rfl, rfl, nz_dl_sub s.paras seen⟩, ih _⟩

theorem nz_rl_mem (ss' : List NormSection) :
    ∀ ss s', nzRL ss' ss → s' ∈ ss' → ∃ s ∈ ss, nzR s' s := by
  induction ss' with
  | nil => intro ss s' _ h; exact absurd h (List.not_mem_nil s')
  | cons a l' ih =>
    intro ss s' hr hm
    cases ss with
    | nil => exact hr.elim
    | cons s l =>
      obtain ⟨h1, h2⟩ := hr
      rcases List.mem_cons.mp hm with h | h
      · exact ⟨s, List.mem_cons_self s l, h ▸ h1⟩
      · obtain ⟨t, ht, h'⟩ := ih l s' h2 h
        exact ⟨t, List.mem_cons_of_mem s ht, h'⟩

theorem nz_rl_heads (ss' : List NormSection) :
    ∀ ss, nzRL ss' ss → headsOf ss' = headsOf ss := by
  induction ss' with
  | nil =>
    intro ss hr
    cases ss with
    | nil => rfl
    | cons s l => exact hr.elim
  | cons a l' ih =>
    intro ss hr
    cases ss with
    | nil => exact hr.elim
    | cons s l =>
      obtain ⟨h1, h2⟩ := hr
      simp only [headsOf, List.map_cons]
      rw [h1.1]
      have := ih l h2
      simp only [headsOf] at this
      rw [this]

/-! `emitPending` and `collapseBlanks`. -/

theorem nz_emit_sub (p : List Str) : (emitPending p).Sublist p := by
  unfold emitPending
  split
  · exact List.take_sublist 1 p
  · exact List.Sublist.refl p

theorem nz_emit_blank (p : List Str) (hp : ∀ y ∈ p, isBlankLine y = true) :
    ∀ y ∈ emitPending p, isBlankLine y = true :=
  fun y hy => hp y ((nz_emit_sub p).subset hy)

theorem nz_emit_len (p : List Str) : (emitPending p).length ≤ 2 := by
  unfold emitPending
  split
  · simp only [List.length_take]
    omega
  · omega

theorem nz_emit_of_short (p : List Str) (h : p.length ≤ 2) : emitPending p = p := by
  unfold emitPending
  rw [if_neg (by omega)]

theorem nz_cbA_sub (l : List Str) : ∀ p, (collapseBlanksAux p l).Sublist (p ++ l) := by
  induction l with
  | nil =>
    intro p
    rw [nz_cbA_nil, List.append_nil]
    exact nz_emit_sub p
  | cons x rest ih =>
    intro p
    cases hb : isBlankLine x with
    | true =>
      rw [nz_cbA_blank p rest hb]
      have h := ih (p ++ [x])
      rw [List.append_assoc] at h
      simpa using h
    | false =>
      rw [nz_cbA_nonblank p rest hb]
      exact List.Sublist.append (nz_emit_sub p)
        (List.Sublist.cons₂ x (ih []))

theorem nz_collapse_sub (l : List Str) : (collapseBlanks l).Sublist l :=
  nz_cbA_sub l []

/-! Blank-run bounds. -/

theorem nz_runsOk_le (l : List Str) : ∀ c, runsOkAux c l = true → c ≤ 2 := by
  induction l with
  | nil =>
    intro c h
    rw [nz_rkA_nil] at h
    exact of_decide_eq_true h
  | cons x rest ih =>
    intro c h
    cases hb : isBlankLine x with
    | true =>
      rw [nz_rkA_blank c rest hb] at h
      have := ih (c + 1) h
      omega
    | false =>
      rw [nz_rkA_nonblank c rest hb] at h
      exact of_decide_eq_true ((Bool.and_eq_true _ _).mp h).1

theorem nz_runsOk_blank_app (p : List Str) :
    ∀ c t, (∀ y ∈ p, isBlankLine y = true) →
      runsOkAux c (p ++ t) = runsOkAux (c + p.length) t := by
  induction p with
  | nil => intro c t _; simp
  | cons y p ih =>
    intro c t hp
    have hy := hp y (List.mem_cons_self y p)
    rw [List.cons_append, nz_rkA_blank c _ hy,
      ih (c + 1) t (fun z hz => hp z (List.mem_cons_of_mem _ hz))]
    congr 1
    simp only [List.length_cons]
    omega

theorem nz_collapse_runsOk (l : List Str) :
    ∀ p, (∀ y ∈ p, isBlankLine y = true) →
      runsOkAux 0 (collapseBlanksAux p l) = true := by
  induction l with
  | nil =>
    intro p hp
    rw [nz_cbA_nil]
    have h1 : runsOkAux 0 (emitPending p ++ []) =
        runsOkAux (0 + (emitPending p).length) [] :=
      nz_runsOk_blank_app _ 0 [] (nz_emit_blank p hp)
    rw [List.append_nil] at h1
    rw [h1, nz_rkA_nil]
    have := nz_emit_len p
    simp only [decide_eq_true_eq]
    omega
  | cons x rest ih =>
    intro p hp
    cases hb : isBlankLine x with
    | true =>
      rw [nz_cbA_blank p rest hb]
      refine ih (p ++ [x]) ?_
      intro y hy
      rcases List.mem_append.mp hy with h | h
      · exact hp y h
      · rw [List.mem_singleton.mp h]
        exact hb
    | false =>
      rw [nz_cbA_nonblank p rest hb]
      rw [nz_runsOk_blank_app _ 0 _ (nz_emit_blank p hp)]
      rw [nz_rkA_nonblank _ _ hb]
      rw [ih [] (fun y hy => absurd hy (List.not_mem_nil y))]
      have := nz_emit_len p
      simp only [Bool.and_true, decide_eq_true_eq]
      omega

theorem nz_collapse_id (l : List Str) :
    ∀ p, (∀ y ∈ p, isBlankLine y = true) → runsOkAux p.length l = true →
      collapseBlanksAux p l = p ++ l := by
  induction l with
  | nil =>
    intro p hp h
    rw [nz_rkA_nil] at h
    rw [nz_cbA_nil, nz_emit_of_short p (of_decide_eq_true h), List.append_nil]
  | cons x rest ih =>
    intro p hp h
    cases hb : isBlankLine x with
    | true =>
      rw [nz_rkA_blank _ rest hb] at h
      rw [nz_cbA_blank p rest hb]
      have hp' : ∀ y ∈ p ++ [x], isBlankLine y = true := by
        intro y hy
        rcases List.mem_append.mp hy with h' | h'
        · exact hp y h'
        · rw [List.mem_singleton.mp h']
          exact hb
      have hlen : (p ++ [x]).length = p.length + 1 := by simp
      rw [ih (p ++ [x]) hp' (by rw [hlen]; exact h)]
      simp
    | false =>
      rw [nz_rkA_nonblank _ rest hb] at h
      obtain ⟨h1, h2⟩ := (Bool.and_eq_true _ _).mp h
      rw [nz_cbA_nonblank p rest hb, nz_emit_of_short p (of_decide_eq_true h1)]
      rw [ih [] (fun y hy => absurd hy (List.not_mem_nil y)) h2, List.nil_append]

theorem nz_collapse_idem (l : List Str) :
    collapseBlanks (collapseBlanks l) = collapseBlanks l := by
  have h := nz_collapse_runsOk l [] (fun y hy => absurd hy (List.not_mem_nil y))
  have h2 := nz_collapse_id (collapseBlanksAux [] l) []
    (fun y hy => absurd hy (List.not_mem_nil y)) h
  rw [List.nil_append] at h2
  exact h2

/-! `dropTrailingBlanks`. -/

theorem nz_dropT_sub (l : List Str) : (dropTrailingBlanks l).Sublist l := by
  have h := (List.dropWhile_sublist (l := l.reverse) isBlankLine).reverse
  rwa [List.reverse_reverse] at h

theorem nz_dropT_app (l : List Str) :
    dropTrailingBlanks l ++ (l.reverse.takeWhile isBlankLine).reverse = l := by
  rw [dropTrailingBlanks, ← List.reverse_append, List.takeWhile_append_dropWhile,
    List.reverse_reverse]

theorem nz_runsOk_app_left (l₁ : List Str) :
    ∀ l₂ c, runsOkAux c (l₁ ++ l₂) = true → runsOkAux c l₁ = true := by
  induction l₁ with
  | nil =>
    intro l₂ c h
    rw [nz_rkA_nil]
    exact decide_eq_true (nz_runsOk_le _ c h)
  | cons x rest ih =>
    intro l₂ c h
    cases hb : isBlankLine x with
    | true =>
      rw [List.cons_append, nz_rkA_blank c _ hb] at h
      rw [nz_rkA_blank c rest hb]
      exact ih l₂ (c + 1) h
    | false =>
      rw [List.cons_append, nz_rkA_nonblank c _ hb] at h
      obtain ⟨h1, h2⟩ := (Bool.and_eq_true _ _).mp h
      rw [nz_rkA_nonblank c rest hb]
      simp only [Bool.and_eq_true]
      exact ⟨h1, ih l₂ 0 h2⟩

theorem nz_runsOk_dropT (l : List Str) (h : runsOkAux 0 l = true) :
    runsOkAux 0 (dropTrailingBlanks l) = true :=
  nz_runsOk_app_left _ _ 0 (by rw [nz_dropT_app l]; exact h)

theorem nz_dropWhile_idem (p : Str → Bool) (l : List Str) :
    List.dropWhile p (List.dropWhile p l) = List.dropWhile p l := by
  induction l with
  | nil => rfl
  | cons x rest ih =>
    cases hx : p x with
    | true =>
      rw [List.dropWhile_cons_of_pos hx]
      exact ih
    | false =>
      rw [List.dropWhile_cons_of_neg (by simp [hx]),
        List.dropWhile_cons_of_neg (by simp [hx])]

theorem nz_dropT_idem (l : List Str) :
    dropTrailingBlanks (dropTrailingBlanks l) = dropTrailingBlanks l := by
  simp only [dropTrailingBlanks, List.reverse_reverse]
  rw [nz_dropWhile_idem]

/-! `nzStep7L`: unfolding equations, the relation to the input, idempotence. -/

theorem nz_s7_single (s : NormSection) :
    nzStep7L [s] = [nzDropSec (nzCollapseSec s)] := rfl

theorem nz_s7_cons2 (s t : NormSection) (ts : List NormSection) :
    nzStep7L (s :: t :: ts) = nzCollapseSec s :: nzStep7L (t :: ts) := rfl

theorem nz_collapseSec_idem (s : NormSection) :
    nzCollapseSec (nzCollapseSec s) = nzCollapseSec s := by
  simp only [nzCollapseSec]
  rw [nz_collapse_idem]

theorem nz_collapseSec_dropSec (s : NormSection) :
    nzCollapseSec (nzDropSec (nzCollapseSec s)) = nzDropSec (nzCollapseSec s) := by
  have h1 : runsOkAux 0 (collapseBlanks s.paras) = true :=
    nz_collapse_runsOk s.paras [] (fun y hy => absurd hy (List.not_mem_nil y))
  have h2 := nz_runsOk_dropT _ h1
  have h3 := nz_collapse_id (dropTrailingBlanks (collapseBlanks s.paras)) []
    (fun y hy => absurd hy (List.not_mem_nil y)) h2
  rw [List.nil_append] at h3
  simp only [collapseBlanks] at h3
  simp only [nzCollapseSec, nzDropSec, collapseBlanks]
  rw [h3]

theorem nz_dropSec_dropSec (s : NormSection) :
    nzDropSec (nzDropSec s) = nzDropSec s := by
  simp only [nzDropSec]
  rw [nz_dropT_idem]

theorem nz_rl_s7 (ss : List NormSection) : nzRL (nzStep7L ss) ss := by
  induction ss with
  | nil => trivial
  | cons s rest ih =>
    cases rest with
    | nil =>
      rw [nz_s7_single]
      exact ⟨⟨rfl, rfl, rfl, (nz_dropT_sub _).trans (nz_collapse_sub _)⟩, trivial⟩
    | cons t ts =>
      rw [nz_s7_cons2]
      exact ⟨⟨rfl, rfl, rfl, nz_collapse_sub _⟩, ih⟩

theorem nz_s7_idem (ss : List NormSection) : nzStep7L (nzStep7L ss) = nzStep7L ss := by
  induction ss with
  | nil => rfl
  | cons s rest ih =>
    cases rest with
    | nil =>
      rw [nz_s7_single, nz_s7_single, nz_collapseSec_dropSec, nz_dropSec_dropSec]
    | cons t ts =>
      rw [nz_s7_cons2]
      obtain ⟨u, us, hu⟩ : ∃ u us, nzStep7L (t :: ts) = u :: us := by
        cases ts with
        | nil => exact ⟨_, _, nz_s7_single t⟩
        | cons a as => exact ⟨_, _, nz_s7_cons2 t a as⟩
      rw [hu, nz_s7_cons2, nz_collapseSec_idem, ← hu, ih]

/-! Transfer of per-section facts along the pipeline. -/

theorem nz_heads_map (f : NormSection → NormSection)
    (hf : ∀ s, (f s).heading = s.heading) (ss : List NormSection) :
    headsOf (ss.map f) = headsOf ss := by
  simp only [headsOf, List.map_map]
  exact List.map_congr_left (fun s _ => hf s)

theorem nz_countOpt_heads (opt : Str) (ss' ss : List NormSection)
    (h : headsOf ss' = headsOf ss) :
    List.countP (fun s => decide (s.heading = opt)) ss' =
      List.countP (fun s => decide (s.heading = opt)) ss := by
  have e1 : List.countP (fun s => decide (s.heading = opt)) ss' =
      List.countP (fun x => decide (x = opt)) (headsOf ss') := by
    simp only [headsOf, List.countP_map]
    rfl
  have e2 : List.countP (fun s => decide (s.heading = opt)) ss =
      List.countP (fun x => decide (x = opt)) (headsOf ss) := by
    simp only [headsOf, List.countP_map]
    rfl
  rw [e1, e2, h]

theorem nz_rel_pres_hn (P : Str → List (Nat × Str) → Prop)
    (ss' ss : List NormSection) (hr : nzRL ss' ss)
    (h : ∀ s ∈ ss, P s.heading s.numbered) :
    ∀ s' ∈ ss', P s'.heading s'.numbered := by
  intro s' hs'
  obtain ⟨s, hs, hh, hb, hn, hp⟩ := nz_rl_mem _ _ _ hr hs'
  rw [hh, hn]
  exact h s hs

theorem nz_rel_pres_hb (P : Str → List Str → Prop)
    (ss' ss : List NormSection) (hr : nzRL ss' ss)
    (h : ∀ s ∈ ss, P s.heading s.bullets) :
    ∀ s' ∈ ss', P s'.heading s'.bullets := by
  intro s' hs'
  obtain ⟨s, hs, hh, hb, hn, hp⟩ := nz_rl_mem _ _ _ hr hs'
  rw [hh, hb]
  exact h s hs

theorem nz_rel_pres_hp (P : Str → Str → Prop)
    (ss' ss : List NormSection) (hr : nzRL ss' ss)
    (h : ∀ s ∈ ss, ∀ l ∈ s.paras, P s.heading l) :
    ∀ s' ∈ ss', ∀ l ∈ s'.paras, P s'.heading l := by
  intro s' hs' l hl
  obtain ⟨s, hs, hh, hb, hn, hp⟩ := nz_rl_mem _ _ _ hr hs'
  rw [hh]
  exact h s hs l (hp.subset hl)

/-! The output of the normalizer, unfolded once, and its heading list. -/

theorem nz_sections_eq (cfg : NormConfig) (ss : List NormSection) :
    nzSections cfg ss = nzStep7L (dedupSectionsAux []
      (((collapseOptAux cfg.optName cfg.bulletCap false
          ((ss.filter (fun s =>
              !decide (s.heading ∈ cfg.disallowed) &&
              (decide (s.heading ∈ cfg.allowed) || cfg.freeForm s.heading))).map
            (consolidateTips cfg))).map
          (nzCapSec cfg)).map
        (nzRenumSec cfg))) := rfl

theorem nz_capSec_heading (cfg : NormConfig) (s : NormSection) :
    (nzCapSec cfg s).heading = s.heading := rfl

theorem nz_capSec_paras (cfg : NormConfig) (s : NormSection) :
    (nzCapSec cfg s).paras = s.paras := rfl

theorem nz_capSec_bullets (cfg : NormConfig) (s : NormSection) :
    (nzCapSec cfg s).bullets = s.bullets.take cfg.bulletCap := rfl

theorem nz_renumSec_heading (cfg : NormConfig) (s : NormSection) :
    (nzRenumSec cfg s).heading = s.heading := by
  unfold nzRenumSec
  split <;> rfl

theorem nz_renumSec_paras (cfg : NormConfig) (s : NormSection) :
    (nzRenumSec cfg s).paras = s.paras := by
  unfold nzRenumSec
  split <;> rfl

theorem nz_renumSec_bullets (cfg : NormConfig) (s : NormSection) :
    (nzRenumSec cfg s).bullets = s.bullets := by
  unfold nzRenumSec
  split <;> rfl

theorem nz_renumSec_numbered_of_proc (cfg : NormConfig) (s : NormSection)
    (h : s.heading = cfg.procName) :
    (nzRenumSec cfg s).numbered = renumberCap cfg.stepCap s.numbered := by
  unfold nzRenumSec
  rw [if_pos h]

theorem nz_heads_after (cfg : NormConfig) (ss : List NormSection) :
    headsOf (nzSections cfg ss) =
      headsOf (collapseOptAux cfg.optName cfg.bulletCap false
        ((ss.filter (fun s =>
            !decide (s.heading ∈ cfg.disallowed) &&
            (decide (s.heading ∈ cfg.allowed) || cfg.freeForm s.heading))).map
          (consolidateTips cfg))) := by
  rw [nz_sections_eq]
  rw [nz_rl_heads _ _ (nz_rl_s7 _)]
  rw [nz_rl_heads _ _ (nz_rl_dsA _ [])]
  rw [nz_heads_map (nzRenumSec cfg) (fun s => nz_renumSec_heading cfg s)]
  rw [nz_heads_map (nzCapSec cfg) (fun s => nz_capSec_heading cfg s)]

/-! The seven invariants of normalized output. -/

theorem nz_chain_heads (cfg : NormConfig) (ss : List NormSection) (q : Str → Prop)
    (h0 : ∀ s ∈ (ss.filter (fun s =>
        !decide (s.heading ∈ cfg.disallowed) &&
        (decide (s.heading ∈ cfg.allowed) || cfg.freeForm s.heading))).map
      (consolidateTips cfg), q s.heading) :
    ∀ s ∈ nzSections cfg ss, q s.heading := by
  intro s hs
  have h1 : s.heading ∈ headsOf (nzSections cfg ss) :=
    List.mem_map_of_mem _ hs
  rw [nz_heads_after cfg ss] at h1
  obtain ⟨t, ht, he⟩ := List.mem_map.mp h1
  obtain ⟨u, hu, hor⟩ := nz_collapseOpt_mem _ _ _ false t ht
  rw [← he]
  rcases hor with h | h
  · rw [h]
    exact h0 u hu
  · rw [h]
    exact h0 u hu

theorem nz_inv1 (cfg : NormConfig) (ss : List NormSection) :
    ∀ s ∈ nzSections cfg ss,
      (!decide (s.heading ∈ cfg.disallowed) &&
        (decide (s.heading ∈ cfg.allowed) || cfg.freeForm s.heading)) = true := by
  refine nz_chain_heads cfg ss
    (fun h => (!decide (h ∈ cfg.disallowed) &&
      (decide (h ∈ cfg.allowed) || cfg.freeForm h)) = true) ?_
  intro s hs
  obtain ⟨a, ha, rfl⟩ := List.mem_map.mp hs
  rw [nz_consTips_heading]
  exact (List.mem_filter.mp ha).2

theorem nz_inv2a (cfg : NormConfig) (ss : List NormSection) :
    ∀ s ∈ nzSections cfg ss, ∀ l ∈ s.paras,
      s.heading = cfg.bgName → cfg.tipLike l = false := by
  rw [nz_sections_eq]
  refine nz_rel_pres_hp (fun h l => h = cfg.bgName → cfg.tipLike l = false)
    _ _ (nz_rl_s7 _) ?_
  refine nz_rel_pres_hp (fun h l => h = cfg.bgName → cfg.tipLike l = false)
    _ _ (nz_rl_dsA _ []) ?_
  intro s hs l hl hbg
  obtain ⟨d, hd, rfl⟩ := List.mem_map.mp hs
  rw [nz_renumSec_heading] at hbg
  rw [nz_renumSec_paras] at hl
  obtain ⟨c, hc, rfl⟩ := List.mem_map.mp hd
  rw [nz_capSec_heading] at hbg
  rw [nz_capSec_paras] at hl
  obtain ⟨b, hb, hor⟩ := nz_collapseOpt_mem _ _ _ false c hc
  rcases hor with h | h
  all_goals {
    subst h
    try dsimp only at hl hbg ⊢
    obtain ⟨a, ha, rfl⟩ := List.mem_map.mp hb
    try dsimp only at hl hbg ⊢
    rw [nz_consTips_heading] at hbg
    have hpc : (consolidateTips cfg a).paras =
        a.paras.filter (fun l => !cfg.tipLike l) := by
      unfold consolidateTips
      rw [if_pos hbg]
    rw [hpc] at hl
    have h2 := (List.mem_filter.mp hl).2
    simp only [Bool.not_eq_true'] at h2
    exact h2
  }

theorem nz_inv2b (cfg : NormConfig) (ss : List NormSection) :
    ∀ s ∈ nzSections cfg ss, s.heading = cfg.bgName → KeysFresh [] s.bullets := by
  rw [nz_sections_eq]
  refine nz_rel_pres_hb (fun h b => h = cfg.bgName → KeysFresh [] b)
    _ _ (nz_rl_s7 _) ?_
  refine nz_rel_pres_hb (fun h b => h = cfg.bgName → KeysFresh [] b)
    _ _ (nz_rl_dsA _ []) ?_
  intro s hs hbg
  obtain ⟨d, hd, rfl⟩ := List.mem_map.mp hs
  rw [nz_renumSec_heading] at hbg
  rw [nz_renumSec_bullets]
  obtain ⟨c, hc, rfl⟩ := List.mem_map.mp hd
  rw [nz_capSec_heading] at hbg
  rw [nz_capSec_bullets]
  refine nz_keysFresh_take _ _ _ ?_
  obtain ⟨b, hb, hor⟩ := nz_collapseOpt_mem _ _ _ false c hc
  rcases hor with h | h
  all_goals {
    subst h
    try dsimp only at hbg ⊢
    first
    | refine nz_keysFresh_take _ _ _ ?_
    | skip
    obtain ⟨a, ha, rfl⟩ := List.mem_map.mp hb
    try dsimp only at hbg ⊢
    rw [nz_consTips_heading] at hbg
    have hbc : (consolidateTips cfg a).bullets =
        capDedup cfg.bulletCap (a.bullets ++ a.paras.filter cfg.tipLike) := by
      unfold consolidateTips
      rw [if_pos hbg]
    rw [hbc]
    unfold capDedup dedupByKey
    exact nz_keysFresh_take _ _ _ (nz_keysFresh_dedupAux _ [])
  }

theorem nz_inv3 (cfg : NormConfig) (ss : List NormSection) :
    List.countP (fun s => decide (s.heading = cfg.optName)) (nzSections cfg ss) ≤ 1 := by
  rw [nz_countOpt_heads cfg.optName _ _ (nz_heads_after cfg ss)]
  exact nz_collapseOpt_count_le _ _ _

theorem nz_inv4 (cfg : NormConfig) (ss : List NormSection) :
    ∀ s ∈ nzSections cfg ss, s.bullets.take cfg.bulletCap = s.bullets := by
  rw [nz_sections_eq]
  refine nz_rel_pres_hb (fun _ b => b.take cfg.bulletCap = b) _ _ (nz_rl_s7 _) ?_
  refine nz_rel_pres_hb (fun _ b => b.take cfg.bulletCap = b) _ _ (nz_rl_dsA _ []) ?_
  intro s hs
  obtain ⟨d, hd, rfl⟩ := List.mem_map.mp hs
  rw [nz_renumSec_bullets]
  obtain ⟨c, hc, rfl⟩ := List.mem_map.mp hd
  rw [nz_capSec_bullets]
  rw [List.take_take, Nat.min_self]

theorem nz_inv5 (cfg : NormConfig) (ss : List NormSection) :
    ∀ s ∈ nzSections cfg ss, s.heading = cfg.procName →
      renumberCap cfg.stepCap s.numbered = s.numbered := by
  rw [nz_sections_eq]
  refine nz_rel_pres_hn
    (fun h n => h = cfg.procName → renumberCap cfg.stepCap n = n)
    _ _ (nz_rl_s7 _) ?_
  refine nz_rel_pres_hn
    (fun h n => h = cfg.procName → renumberCap cfg.stepCap n = n)
    _ _ (nz_rl_dsA _ []) ?_
  intro s hs hproc
  obtain ⟨d, hd, rfl⟩ := List.mem_map.mp hs
  rw [nz_renumSec_heading] at hproc
  rw [nz_renumSec_numbered_of_proc cfg d hproc]
  exact nz_renumber_stable _ _

theorem nz_inv6 (cfg : NormConfig) (ss : List NormSection) :
    FreshSections [] (nzSections cfg ss) := by
  rw [nz_sections_eq]
  exact nz_fs_rel _ _ _ (nz_rl_s7 _) (nz_fs_dsA _ [])

/-! Idempotence of the normalizer. -/

theorem nz_sections_idem (cfg : NormConfig) (ss : List NormSection) :
    nzSections cfg (nzSections cfg ss) = nzSections cfg ss := by
  have h1 := nz_inv1 cfg ss
  have h2a := nz_inv2a cfg ss
  have h2b := nz_inv2b cfg ss
  have h3 := nz_inv3 cfg ss
  have h4 := nz_inv4 cfg ss
  have h5 := nz_inv5 cfg ss
  have h6 := nz_inv6 cfg ss
  rw [nz_sections_eq cfg (nzSections cfg ss)]
  rw [List.filter_eq_self.mpr h1]
  rw [nz_map_id (consolidateTips cfg) (nzSections cfg ss)
    (fun s hs => nz_consTips_id cfg s (fun hbg =>
      ⟨fun l hl => h2a s hs l hl hbg,
        nz_dedupAux_of_fresh s.bullets [] (h2b s hs hbg),
        h4 s hs⟩))]
  rw [nz_collapseOpt_id _ _ _ h3 (fun s hs _ => h4 s hs)]
  rw [nz_map_id (nzCapSec cfg) (nzSections cfg ss) (fun s hs => by
    unfold nzCapSec
    rw [h4 s hs])]
  rw [nz_map_id (nzRenumSec cfg) (nzSections cfg ss) (fun s hs => by
    unfold nzRenumSec
    by_cases hp : s.heading = cfg.procName
    · rw [if_pos hp, h5 s hs hp]
    · rw [if_neg hp])]
  rw [nz_dsA_of_fresh _ [] h6]
  rw [nz_sections_eq cfg ss]
  exact nz_s7_idem _

theorem nz_normalize_eq (cfg : NormConfig) (d : NormDoc) :
    normalize cfg d = { header := d.header, sections := nzSections cfg d.sections } := rfl

/-- C3: the Structural Normalizer is idempotent — normalizing an already
normalized document changes nothing, for every configuration and document.
Modelled from the spec (section 4.4): the repository ships no implementation
of the normalizer, so `normalize` follows the spec's own seven-step
description. -/
theorem c3_normalize_idempotent (cfg : NormConfig) (d : NormDoc) :
    normalize cfg (normalize cfg d) = normalize cfg d := by
  rw [nz_normalize_eq cfg d, nz_normalize_eq cfg]
  dsimp only
  rw [nz_sections_idem]

end Artikel
